import Mathlib

/-!
Verification of the html4docx HTML-to-DOCX converter.

This file gives a shallow embedding, in Lean 4, of the core algorithms of
the html4docx repository (modules html4docx/utils.py, html4docx/css_parser.py,
html4docx/h4d.py and html4docx/constants.py), and proves or refutes the
frozen claims about them.  Python dictionaries are modelled as insertion
ordered association lists, Python floats as rationals, and fallible Python
code (raising ValueError and friends) as Except-valued functions.
-/

namespace Html4Docx

/-! ## Generic string and dictionary helpers -/

/-- Python whitespace characters (the character class backslash-s of the re
module, ASCII range): space, tab, newline, carriage return, vertical tab
and form feed. -/
def isPyWs (c : Char) : Bool :=
  c = ' ' || c = '\t' || c = '\n' || c = '\r' || c = '\x0b' || c = '\x0c'

/-- The character list of the string "!important". -/
def importantChars : List Char :=
  ['!', 'i', 'm', 'p', 'o', 'r', 't', 'a', 'n', 't']

/-- Remove every (left-to-right, non-overlapping) case-insensitive occurrence
of "!important" from a character list; the fuel argument (instantiated with
the list length, which always suffices) only makes the recursion
structural. -/
def stripImportantAux : Nat → List Char → List Char
  | 0, l => l
  | _ + 1, [] => []
  | fuel + 1, c :: cs =>
    if ((c :: cs).take 10).map Char.toLower = importantChars then
      stripImportantAux fuel ((c :: cs).drop 10)
    else
      c :: stripImportantAux fuel cs

/-- The substitution performed by
re.sub("!important", "", text, flags=re.IGNORECASE) in
utils.remove_important_from_style. -/
def stripImportantChars (l : List Char) : List Char :=
  stripImportantAux l.length l

/-- Strip leading and trailing Python whitespace from a character list
(the str.strip method with no argument). -/
def trimChars (l : List Char) : List Char :=
  ((l.dropWhile isPyWs).reverse.dropWhile isPyWs).reverse

/-- The str.strip method with no argument. -/
def pyStrip (s : String) : String :=
  String.mk (trimChars s.toList)

/-- utils.remove_important_from_style: strip the important flag (case
insensitively) and surrounding whitespace. -/
def remove_important_from_style (s : String) : String :=
  pyStrip (String.mk (stripImportantChars s.toList))

/-- Substring containment on character lists, modelling the Python test
pat in s. -/
def containsSubChars (l pat : List Char) : Bool :=
  match l with
  | [] => pat.isEmpty
  | c :: cs => pat.isPrefixOf (c :: cs) || containsSubChars cs pat

/-- Case-insensitive test for an important flag inside a CSS value, modelling
the Python test "!important" in value.lower(). -/
def hasImportant (v : String) : Bool :=
  containsSubChars (v.toList.map Char.toLower) importantChars

/-- Remove every exact-case occurrence of "!important" from a character
list; the fuel argument (instantiated with the list length, which always
suffices) only makes the recursion structural. -/
def dropImportantExactAux : Nat → List Char → List Char
  | 0, l => l
  | _ + 1, [] => []
  | fuel + 1, c :: cs =>
    if importantChars.isPrefixOf (c :: cs) then
      dropImportantExactAux fuel ((c :: cs).drop 10)
    else
      c :: dropImportantExactAux fuel cs

/-- The str.replace call removing the exact-case "!important" in the cascade
code (which, unlike remove_important_from_style, is case sensitive). -/
def dropImportantExactChars (l : List Char) : List Char :=
  dropImportantExactAux l.length l

/-- The cleanup value.replace("!important", "").strip() performed on a
declaration value carrying an important flag. -/
def strip_important_value (v : String) : String :=
  pyStrip (String.mk (dropImportantExactChars v.toList))

/-- Insertion-ordered dictionary of string keys and values, modelling a
Python dict of str to str (whose keys are unique by construction). -/
abbrev Dict : Type := List (String × String)

/-- Lookup in a dictionary (keys are unique in every dict the Python code
builds, so first match is the match). -/
def dget : Dict → String → Option String
  | [], _ => none
  | p :: rest, k => if p.1 = k then some p.2 else dget rest k

/-- Setting a key in a dictionary: overwrite in place if the key is present
(keeping insertion order, as a Python dict with unique keys does), else
append at the end. -/
def dset : Dict → String → String → Dict
  | [], k, v => [(k, v)]
  | p :: rest, k, v => if p.1 = k then (k, v) :: rest else p :: dset rest k v

/-- Merge the second dictionary into the first (Python dict.update). -/
def dmerge (d other : Dict) : Dict :=
  List.foldl (fun (acc : Dict) (p : String × String) => dset acc p.1 p.2) d other

/-! ## Unit converter (utils.unit_converter, constants.MAX_INDENT) -/

/-- constants.MAX_INDENT: 5.5 (inches). -/
def MAX_INDENT : ℚ := 11 / 2

/-- The conversion-to-points table of utils.unit_converter (the
conversion_to_pt dictionary): factor applied to the numeric value, or none
for an unsupported unit. -/
def conversion_to_pt (value : ℚ) (unit : String) : Option ℚ :=
  if unit = "px" then some (value * (3 / 4))
  else if unit = "pt" then some value
  else if unit = "in" then some (value * 72)
  else if unit = "pc" then some (value * 12)
  else if unit = "cm" then some (value * (283465 / 10000))
  else if unit = "mm" then some (value * (283465 / 100000))
  else if unit = "em" then some (value * 12)
  else if unit = "rem" then some (value * 12)
  else if unit = "%" then some value
  else none

/-- utils.unit_converter with the default target unit pt, at the level of the
numeric value and unit already extracted by its regexes from a well-formed
string of the shape number-then-unit.  The result is the point magnitude
wrapped by Pt in the Python code; an unsupported unit yields none (the code
prints a warning and returns None).  The point value is clamped to
MAX_INDENT * 72. -/
def unit_converter (value : ℚ) (unit : String) : Option ℚ :=
  (conversion_to_pt value unit).map (fun v => min v (MAX_INDENT * 72))

/-! ## CSS cascade engine (css_parser.CSSParser) -/

/-- A simple selector as built by get_styles_for_element_with_important when
it gathers candidate rules for an element: the bare tag name, a dot followed
by a class name, or a hash followed by the id. -/
inductive SimpleSel
  | tagSel (name : String)
  | clsSel (name : String)
  | idSel (name : String)

/-- CSSParser._calculate_specificity evaluated at the three selector string
shapes the effective-styles query builds (names made of word characters).
For a hash plus name the id regex finds one match and the class, attribute
and tag regexes find none, giving 100; for a dot plus name only the class
regex matches, giving 10; for a bare name only the leading tag alternative
matches, giving 1. -/
def calculate_specificity : SimpleSel → Nat
  | .tagSel _ => 1
  | .clsSel _ => 10
  | .idSel _ => 100

/-- The stored rule tables of a CSSParser: tag_rules, class_rules and
id_rules, each mapping a selector name to its accumulated declaration
dictionary (rules with the same selector have been merged by
CSSParser._store_rule with dict.update, so the later stylesheet declaration
already won inside each entry). -/
structure CSSDB where
  tagRules : List (String × Dict)
  classRules : List (String × Dict)
  idRules : List (String × Dict)

/-- The element data get_styles_for_element_with_important consumes: the tag
name, the whitespace-split class attribute, and the id attribute. -/
structure ElemCtx where
  tag : String
  classes : List String
  idAttr : Option String

/-- Lookup of a rule table entry by selector name. -/
def rlookup (l : List (String × Dict)) (k : String) : Option Dict :=
  (List.find? (fun p => p.1 == k) l).map (fun p => p.2)

/-- The applicable_rules list built by get_styles_for_element_with_important:
the tag rule (if any), then one class rule per class of the class attribute
in attribute order (if stored), then the id rule (if any), each paired with
its computed specificity. -/
def applicable_rules (db : CSSDB) (el : ElemCtx) : List (Nat × Dict) :=
  (match rlookup db.tagRules el.tag with
   | some s => [(calculate_specificity (.tagSel el.tag), s)]
   | none => []) ++
  (el.classes.filterMap fun c =>
    (rlookup db.classRules c).map fun s => (calculate_specificity (.clsSel c), s)) ++
  (match el.idAttr with
   | some i =>
     match rlookup db.idRules i with
     | some s => [(calculate_specificity (.idSel i), s)]
     | none => []
   | none => [])

/-- Stable insertion of an element into a list sorted by ascending
specificity: the new element goes after all elements of lower or equal key,
so elements with equal keys keep their original relative order, as the
stable Python sorted does. -/
def sinsert (x : Nat × Dict) : List (Nat × Dict) → List (Nat × Dict)
  | [] => [x]
  | y :: ys => if y.1 ≤ x.1 then y :: sinsert x ys else x :: y :: ys

/-- Stable sort by ascending specificity, modelling
sorted(applicable_rules, key=lambda x: x[0]). -/
def ssort (l : List (Nat × Dict)) : List (Nat × Dict) :=
  l.foldl (fun acc x => sinsert x acc) []

/-- Application of one rule dictionary to the running (normal, important)
accumulator: each declaration whose value carries a (case-insensitive)
important flag updates the important dictionary with the flag stripped
(exact case) and the value stripped of whitespace; each other declaration
updates the normal dictionary. -/
def applyRuleStyles (acc : Dict × Dict) (styles : Dict) : Dict × Dict :=
  styles.foldl
    (fun (nm : Dict × Dict) (p : String × String) =>
      if hasImportant p.2 then (nm.1, dset nm.2 p.1 (strip_important_value p.2))
      else (dset nm.1 p.1 p.2, nm.2))
    acc

/-- CSSParser.get_styles_for_element_with_important: gather the applicable
rules, sort them by ascending specificity (stably), apply them in that order
splitting normal from important declarations, then merge the inline normal
and inline important dictionaries on top. -/
def get_styles_for_element_with_important (db : CSSDB) (el : ElemCtx)
    (inline_styles inline_important : Dict) : Dict × Dict :=
  let sortedRules := ssort (applicable_rules db el)
  let ni := sortedRules.foldl (fun acc sr => applyRuleStyles acc sr.2) ([], [])
  (dmerge ni.1 inline_styles, dmerge ni.2 inline_important)

/-- The value the last applicable rule (in gathering order: tag rule, class
rules in class-attribute order, id rule) assigns to a property, if any.
This is the resolution order the code actually implements for the cascade
part of the query. -/
def last_applicable_value (db : CSSDB) (el : ElemCtx) (p : String) : Option String :=
  (applicable_rules db el).foldl
    (fun acc sr =>
      match dget sr.2 p with
      | some v => some v
      | none => acc)
    none

/-- The rule tables CSSParser.parse_css builds from the stylesheet
p brace color:black brace, .hl brace color:blue brace, #s brace color:red
brace. -/
def exampleDb : CSSDB :=
  ⟨[("p", [("color", "black")])],
   [("hl", [("color", "blue")])],
   [("s", [("color", "red")])]⟩

/-- The element p with class hl and id s. -/
def exampleEl : ElemCtx := ⟨"p", ["hl"], some "s"⟩

/-- The rule tables CSSParser.parse_css builds from the stylesheet
.b brace color:blue brace, .a brace color:green brace (rule .b declared
first, rule .a declared later). -/
def tieDb : CSSDB :=
  ⟨[], [("b", [("color", "blue")]), ("a", [("color", "green")])], []⟩

/-- An element of class attribute "a b": both class rules apply with equal
specificity 10. -/
def tieEl : ElemCtx := ⟨"p", ["a", "b"], none⟩

/-! ## Table layout (h4d.HtmlToDocx.get_table_dimensions and handle_table) -/

/-- A table cell as consumed by the table handler: its inner HTML payload and
its colspan and rowspan attributes (defaulting to 1 when absent, as
col.get does). -/
structure TableCell where
  content : String
  colspan : Nat
  rowspan : Nat
deriving DecidableEq

/-- The rowspan part of the dimension loop of get_table_dimensions: iterate
the rows with their index (Python enumerate), and for each cell whose
rowspan exceeds the default span 1 raise the running row maximum to
row index plus rowspan.  The accumulator starts at the literal row count. -/
def dimsRowspanFold : Nat → List (List TableCell) → Nat → Nat
  | _, [], m => m
  | i, row :: rest, m =>
    dimsRowspanFold (i + 1) rest
      (row.foldl (fun a c => if 1 < c.rowspan then max a (i + c.rowspan) else a) m)

/-- The colspan sum of one row (the row_col_count of get_table_dimensions). -/
def sumColspan (row : List TableCell) : Nat :=
  row.foldl (fun s c => s + c.colspan) 0

/-- HtmlToDocx.get_table_dimensions: an empty row list yields (0, 0); else
the row count is the rowspan-adjusted maximum and the column count the
maximum colspan sum over the rows. -/
def get_table_dimensions (rows : List (List TableCell)) : Nat × Nat :=
  match rows with
  | [] => (0, 0)
  | _ =>
    let maxCols := rows.foldl (fun mc row => max mc (sumColspan row)) 0
    let maxRows := dimsRowspanFold 0 rows rows.length
    (maxRows, maxCols)

/-- The claim-side list of row-extents: for every cell, its row index plus
its rowspan (used to compare the implementation against the formula of the
claim). -/
def cellEnds : Nat → List (List TableCell) → List Nat
  | _, [] => []
  | i, row :: rest => row.map (fun c => i + c.rowspan) ++ cellEnds (i + 1) rest

/-- Maximum of a list of naturals (0 for the empty list). -/
def listMax (l : List Nat) : Nat := l.foldr max 0

/-- The state of the manual cell-placement loop of handle_table: the
occupancy grid used_cells, the docx table contents (every cell of the new
table starts out empty), and, for specification purposes, the history of
every mark event on the occupancy grid (each (row, column) slot the loop
sets to True, in order). -/
structure PlaceState where
  used : List (List Bool)
  grid : List (List String)
  claims : List (Nat × Nat)
deriving DecidableEq

/-- Set one occupancy slot to True (the write used_cells r c = True). -/
def setUsed (used : List (List Bool)) (r c : Nat) : List (List Bool) :=
  match used[r]? with
  | some row => used.set r (row.set c true)
  | none => used

/-- Write the payload of a cell at its anchor slot of the docx table. -/
def setGrid (grid : List (List String)) (r c : Nat) (v : String) :
    List (List String) :=
  match grid[r]? with
  | some row => grid.set r (row.set c v)
  | none => grid

/-- Mark a rowspan-by-colspan rectangle of occupancy slots as used,
recording every mark event.  The unconditional overwrite mirrors the code:
a slot already True is simply set to True again. -/
def markRect (st : PlaceState) (r0 nr c0 nc : Nat) : PlaceState :=
  (List.range' r0 nr).foldl
    (fun s r =>
      (List.range' c0 nc).foldl
        (fun s2 c =>
          { s2 with used := setUsed s2.used r c, claims := s2.claims ++ [(r, c)] })
        s)
    st

/-- Scan of the row suffix starting at off for the first unoccupied slot. -/
def advanceFrom : List Bool → Nat → Except Unit Nat
  | [], _ => .error ()
  | b :: rest, off => if b then advanceFrom rest (off + 1) else .ok off

/-- The while loop advancing col_offset past occupied slots; running past the
end of the row raises IndexError (modelled as error). -/
def advanceOffset (rowUsed : List Bool) (off : Nat) : Except Unit Nat :=
  advanceFrom (rowUsed.drop off) off

/-- Placement of a single cell at row cr starting the column search at off:
advance past occupied slots, write the payload at the anchor, then either
merge a rowspan-by-colspan footprint (raising IndexError when the far
corner is outside the table, as table.cell would) and mark the whole
footprint used, or mark the single anchor slot; finally move the column
cursor by colspan. -/
def placeCell (rowsN colsN cr : Nat) (st : PlaceState) (off : Nat)
    (cell : TableCell) : Except Unit (PlaceState × Nat) := do
  let rowUsed ← match st.used[cr]? with
    | some ru => Except.ok ru
    | none => Except.error ()
  let anchor ← advanceOffset rowUsed off
  let st1 := { st with grid := setGrid st.grid cr anchor cell.content }
  if 1 < cell.rowspan ∨ 1 < cell.colspan then
    if cr + cell.rowspan - 1 < rowsN ∧ anchor + cell.colspan - 1 < colsN then
      Except.ok (markRect st1 cr cell.rowspan anchor cell.colspan,
        anchor + cell.colspan)
    else
      Except.error ()
  else
    Except.ok (markRect st1 cr 1 anchor 1, anchor + cell.colspan)

/-- Placement of the cells of one row, threading the column cursor. -/
def placeCells (rowsN colsN cr : Nat) (st : PlaceState) (off : Nat) :
    List TableCell → Except Unit PlaceState
  | [] => .ok st
  | c :: cs =>
    match placeCell rowsN colsN cr st off c with
    | .error e => .error e
    | .ok (st2, off2) => placeCells rowsN colsN cr st2 off2 cs

/-- Placement of all rows, each starting its column cursor at 0. -/
def placeRows (rowsN colsN cr : Nat) (st : PlaceState) :
    List (List TableCell) → Except Unit PlaceState
  | [] => .ok st
  | r :: rest =>
    match placeCells rowsN colsN cr st 0 r with
    | .error e => .error e
    | .ok st2 => placeRows rowsN colsN (cr + 1) st2 rest

/-- The occupancy-grid core of HtmlToDocx.handle_table: compute the table
dimensions, create the all-empty all-unused docx table, then place every
cell. -/
def handle_table_grid (tbl : List (List TableCell)) : Except Unit PlaceState :=
  let dims := get_table_dimensions tbl
  placeRows dims.1 dims.2 0
    ⟨List.replicate dims.1 (List.replicate dims.2 false),
     List.replicate dims.1 (List.replicate dims.2 ""),
     []⟩
    tbl

/-- The table of end-to-end scenario 1: one row with the single cell Hello,
then a row with the two cells One and Two. -/
def scenarioTable : List (List TableCell) :=
  [[⟨"Hello", 1, 1⟩], [⟨"One", 1, 1⟩, ⟨"Two", 1, 1⟩]]

/-- A malformed table whose spans overlap: row 0 holds a plain cell and a
cell of rowspan 2 (claiming slots (0,1) and (1,1)); row 1 holds a cell of
colspan 2, whose footprint (1,0)-(1,1) re-claims slot (1,1). -/
def overlapTable : List (List TableCell) :=
  [[⟨"A", 1, 1⟩, ⟨"B", 1, 2⟩], [⟨"C", 2, 1⟩]]

/-! ## List numbering (h4d.HtmlToDocx.handle_starttag, handle_endtag,
handle_li for ol/ul/li) -/

/-- The list-related events of the tag state machine. -/
inductive ListEv
  | startOl
  | endOl
  | startUl
  | endUl
  | li
deriving DecidableEq

/-- The list-numbering state of HtmlToDocx together with the relevant part
of the docx numbering sink:
counter is list_restart_counter, currentOl is current_ol_num_id
(python None modelled as none), listStack is self.tags of key list with the
most recently opened list first (Python appends at the end and reads [-1]),
cache is _list_num_ids (its keys are the ints the code uses, with -1
standing for the python expression current_ol_num_id or -1), nextNum and
sink model the numbering part handing out fresh numbering definitions each
carrying a level-0 restart-at-1 override, paras records the numbering id
assigned to each li paragraph (none for bullet items), and identities is a
specification-only history of the listIdentity values allocated at each
ol open. -/
structure ListState where
  counter : Nat
  currentOl : Option Nat
  listStack : List String
  cache : List (Int × Nat)
  nextNum : Nat
  sink : List Nat
  paras : List (Option Nat)
  identities : List Nat
deriving DecidableEq

/-- Lookup in the _list_num_ids cache. -/
def cacheGet (c : List (Int × Nat)) (k : Int) : Option Nat :=
  (c.find? (fun p => p.1 == k)).map (fun p => p.2)

/-- dict.pop(k, None) on the _list_num_ids cache. -/
def cacheErase (c : List (Int × Nat)) (k : Int) : List (Int × Nat) :=
  c.filter (fun p => p.1 != k)

/-- utils.remove_last_occurence on the appended-at-end Python list, phrased
on the reversed (most-recent-first) stack: remove the first occurrence. -/
def removeFirstTag : List String → String → List String
  | [], _ => []
  | t :: rest, x => if t = x then rest else t :: removeFirstTag rest x

/-- HtmlToDocx.handle_li, restricted to its numbering effect: an li under an
ol looks up the cache under current_ol_num_id (or -1 when that tracker is
None); a miss lazily clones a fresh numbering definition with a level-0
restart-at-1 override from the numbering part (the List Number style of the
default template carries a numbering id, so the num_id_style lookup
succeeds) and caches it; the li paragraph then references the id.  A bullet
li references no numbering id. -/
def handle_li_step (st : ListState) : ListState :=
  let listType := st.listStack.headD "ul"
  if listType = "ol" then
    let olId : Int := match st.currentOl with
      | some n => (n : Int)
      | none => -1
    match cacheGet st.cache olId with
    | some numId => { st with paras := st.paras ++ [some numId] }
    | none =>
      { st with
        nextNum := st.nextNum + 1,
        sink := st.sink ++ [st.nextNum],
        cache := st.cache ++ [(olId, st.nextNum)],
        paras := st.paras ++ [some st.nextNum] }
  else
    { st with paras := st.paras ++ [none] }

/-- One list event of the tag state machine: an ol open bumps
list_restart_counter and makes it the current identity; a ul open clears the
tracker; an ol close removes the stack entry, evicts the cache entry keyed
by the tracker (pop with a None tracker removes nothing, since the cache
keys are ints) and clears the tracker; a ul close only pops the stack. -/
def listStep (st : ListState) : ListEv → ListState
  | .startOl =>
    { st with
      counter := st.counter + 1,
      currentOl := some (st.counter + 1),
      listStack := "ol" :: st.listStack,
      identities := st.identities ++ [st.counter + 1] }
  | .startUl =>
    { st with currentOl := none, listStack := "ul" :: st.listStack }
  | .endOl =>
    let st1 := { st with listStack := removeFirstTag st.listStack "ol" }
    let st2 := match st1.currentOl with
      | some n => { st1 with cache := cacheErase st1.cache (n : Int) }
      | none => st1
    { st2 with currentOl := none }
  | .endUl =>
    { st with listStack := removeFirstTag st.listStack "ul" }
  | .li => handle_li_step st

/-- The state at the start of a conversion (set_initial_attrs): counter 0,
no tracker, empty stack and cache; the numbering sink has handed out
nothing. -/
def initListState : ListState := ⟨0, none, [], [], 1, [], [], []⟩

/-- Run a sequence of list events from the initial state. -/
def runList (evs : List ListEv) : ListState :=
  evs.foldl listStep initListState

/-- The sibling scenario: an ol of three items followed by a sibling ol of
one item. -/
def siblingOlEvs : List ListEv :=
  [.startOl, .li, .li, .li, .endOl, .startOl, .li, .endOl]

/-- A nested scenario: an outer ol with an item, then a nested inner ol with
an item, then another item of the outer ol after the inner ol closed. -/
def nestedOlEvs : List ListEv :=
  [.startOl, .li, .startOl, .li, .endOl, .li, .endOl]

/-! ## Color resolver (utils.parse_color, utils.is_color) -/

/-- Lower-casing of a string (str.lower on the ASCII inputs involved). -/
def toLowerStr (s : String) : String :=
  String.mk (s.toList.map Char.toLower)

/-- Modelled from the spec: the fixed named-color table (the Color enum of
the colors module, which is not among the provided sources); the spec only
states that a fixed table of color names maps to RGB triples, so the table
here carries the standard values of the names this development uses. -/
def colorNames : List (String × List Nat) :=
  [("black", [0, 0, 0]), ("white", [255, 255, 255]), ("red", [255, 0, 0]),
   ("green", [0, 128, 0]), ("blue", [0, 0, 255]), ("gray", [128, 128, 128]),
   ("yellow", [255, 255, 0])]

/-- Python int(x) on a decimal token: fails on an empty or non-digit
string. -/
def pyIntDigits (l : List Char) : Option Nat :=
  if l ≠ [] ∧ l.all Char.isDigit then
    some (l.foldl (fun a c => a * 10 + (c.toNat - 48)) 0)
  else
    none

/-- Value of one hexadecimal digit. -/
def hexDigitVal (c : Char) : Option Nat :=
  if c.isDigit then some (c.toNat - 48)
  else if 'a' ≤ c ∧ c ≤ 'f' then some (c.toNat - 87)
  else if 'A' ≤ c ∧ c ≤ 'F' then some (c.toNat - 55)
  else none

/-- Python int(x, 16): fails on an empty string or a non-hex character. -/
def pyIntHex (l : List Char) : Option Nat :=
  match l with
  | [] => none
  | _ =>
    (l.mapM hexDigitVal).map (fun ds => ds.foldl (fun a d => a * 16 + d) 0)

/-- Python str.split(",") keeping empty fields (an empty string yields one
empty field). -/
def splitComma : List Char → List (List Char)
  | [] => [[]]
  | c :: cs =>
    if c = ',' then [] :: splitComma cs
    else
      match splitComma cs with
      | g :: gs => (c :: g) :: gs
      | [] => [[c]]

/-- docx.shared.RGBColor.from_string together with the RGBColor constructor
validation (external collaborator python-docx): parse the slices [:2],
[2:4] and [4:] as hexadecimal and require every channel in 0..255. -/
def rgbcolor_from_string (cs : List Char) : Option (List Nat) :=
  match pyIntHex (cs.take 2), pyIntHex ((cs.drop 2).take 2), pyIntHex (cs.drop 4) with
  | some r, some g, some b =>
    if r ≤ 255 ∧ g ≤ 255 ∧ b ≤ 255 then some [r, g, b] else none
  | _, _, _ => none

/-- The cleanup parse_color performs before dispatching:
remove_important_from_style(color.strip().lower()). -/
def cleanColor (color : String) : String :=
  remove_important_from_style (toLowerStr (pyStrip color))

/-- utils.parse_color (returning the RGB list): a value containing rgb keeps
only digits and commas and converts every comma-separated field with int
(raising ValueError, modelled as error, on an empty or non-numeric field); a
value starting with a hash strips the leading hashes, doubles a 3-character
form, and parses through RGBColor.from_string (raising on malformed hex); a
name of the fixed table yields its triple; everything else falls back to
black. -/
def parse_color (color : String) : Except Unit (List Nat) :=
  let c := cleanColor color
  let cs := c.toList
  if containsSubChars cs ['r', 'g', 'b'] then
    let digits := cs.filter (fun ch => ch.isDigit || ch = ',')
    match (splitComma digits).mapM pyIntDigits with
    | some ns => .ok ns
    | none => .error ()
  else if cs.head? = some '#' then
    let h := cs.dropWhile (fun ch => ch = '#')
    let h2 := if h.length = 3 then h.foldr (fun ch acc => ch :: ch :: acc) [] else h
    match rgbcolor_from_string h2 with
    | some l => .ok l
    | none => .error ()
  else
    match (colorNames.find? (fun p => p.1 == c)).map (fun p => p.2) with
    | some rgb => .ok rgb
    | none => .ok [0, 0, 0]

/-! ## Span styling of a text run (h4d.HtmlToDocx.handle_data span loop) -/

/-- One application of the color handler _apply_color_to_run to a run whose
current color is run: the handler parses the declared value with parse_color
(this strips an important flag) inside a try block and assigns
RGBColor(unpacking colors) to run.font.color.rgb.  A ValueError is caught
and leaves the run unchanged: parse_color itself may raise one, and the
RGBColor constructor raises one when a channel exceeds 255.  Unpacking a
list whose length is not three into the three-parameter constructor raises
a TypeError instead, which the except clause (ValueError, AttributeError)
does not catch, so it propagates out of handle_data (modelled as error). -/
def apply_color_handler (run : Option (List Nat)) (v : String) :
    Except Unit (Option (List Nat)) :=
  match parse_color v with
  | .error _ => .ok run
  | .ok colors =>
    if colors.length = 3 then
      if colors.all (fun n => n ≤ 255) then .ok (some colors) else .ok run
    else .error ()

/-- The span loop of handle_data restricted to the color property: the loop
walks self.tags of key span from the outermost open span to the innermost
and runs the color handler for each span declaring color, threading the run
color through; an uncaught TypeError aborts the loop. -/
def colorSpanLoop : Option (List Nat) → List Dict → Except Unit (Option (List Nat))
  | run, [] => .ok run
  | run, span :: rest =>
    match dget span "color" with
    | some v =>
      match apply_color_handler run v with
      | .error e => .error e
      | .ok run2 => colorSpanLoop run2 rest
    | none => colorSpanLoop run rest

/-- The color the run emitted by handle_data ends up with, starting from an
unset run color: the last declaration in stack order that parses to a valid
three-channel 0-255 color wins; a declaration failing the constructor's
range check leaves the previous color; a wrong-arity declaration aborts. -/
def run_color_after_spans (spans : List Dict) : Except Unit (Option (List Nat)) :=
  colorSpanLoop none spans

/-- The span stack of the C5 counterexample: an outer span declaring
color blue with an important flag, and an inner span declaring color red
without one. -/
def importantSpanStack : List Dict :=
  [[("color", "blue !important")], [("color", "red")]]

/-! ## Whitespace normalization (utils.remove_whitespace and
h4d.HtmlToDocx.handle_data) -/

/-- The first substitution of remove_whitespace with leading=True: the
greedy regex (start of string, whitespace star, newline plus, whitespace
star) matches exactly the maximal whitespace prefix when that prefix
contains a newline, and nothing otherwise; the match is removed. -/
def dropLeadingNlWs (l : List Char) : List Char :=
  if (l.takeWhile isPyWs).contains '\n' then l.dropWhile isPyWs else l

/-- The second substitution (trailing=True): the mirror image of the
leading one on the end of the string. -/
def dropTrailingNlWs (l : List Char) : List Char :=
  (dropLeadingNlWs l.reverse).reverse

/-- The third substitution of remove_whitespace: the greedy regex
(whitespace star, newline, whitespace star) replaced by one space rewrites
each maximal whitespace run containing a newline to a single space, leaving
newline-free runs alone.  The fuel argument (instantiated with the list
length, which always suffices) only makes the recursion structural. -/
def squashNlAux : Nat → List Char → List Char
  | 0, l => l
  | _ + 1, [] => []
  | fuel + 1, c :: cs =>
    if isPyWs c then
      let run := c :: cs.takeWhile isPyWs
      let rest := cs.dropWhile isPyWs
      (if run.contains '\n' then [' '] else run) ++ squashNlAux fuel rest
    else
      c :: squashNlAux fuel cs

/-- The third substitution at adequate fuel. -/
def squashNlRuns (l : List Char) : List Char :=
  squashNlAux l.length l

/-- The fourth substitution of remove_whitespace: the regex (whitespace
plus) replaced by one space rewrites every maximal whitespace run to a
single space.  Fuel as above. -/
def squashWsAux : Nat → List Char → List Char
  | 0, l => l
  | _ + 1, [] => []
  | fuel + 1, c :: cs =>
    if isPyWs c then ' ' :: squashWsAux fuel (cs.dropWhile isPyWs)
    else c :: squashWsAux fuel cs

/-- The fourth substitution at adequate fuel. -/
def squashWsRuns (l : List Char) : List Char :=
  squashWsAux l.length l

/-- utils.remove_whitespace: the four regex substitutions in source order
(leading and trailing ones only when requested). -/
def remove_whitespace (s : String) (leading trailing : Bool) : String :=
  let l := s.toList
  let l1 := if leading then dropLeadingNlWs l else l
  let l2 := if trailing then dropTrailingNlWs l1 else l1
  String.mk (squashWsRuns (squashNlRuns l2))

/-- The text a data event contributes to the run, as preprocessed by
HtmlToDocx.handle_data: whitespace-normalized via
remove_whitespace(data, True, True) unless a pre tag is among the open
tags (the code checks only for pre; a code tag does not suppress
normalization). -/
def handle_data_text (tags : List String) (data : String) : String :=
  if tags.contains "pre" then data else remove_whitespace data true true

/-- The normalization the claim describes: runs of whitespace collapsed to
a single space, leading and trailing whitespace stripped. -/
def collapse_and_strip (s : String) : String :=
  String.mk (squashWsRuns (trimChars s.toList))

/-! ## Cell conversion wrapper (h4d.HtmlToDocx.add_html_to_cell) -/

/-- HtmlToDocx.add_html_to_cell at the level of the paragraph list of the
target cell: the pre-existing first (default) paragraph of the cell is
deleted, the conversion run appends its produced paragraphs (abstracted
here as an arbitrary list, one entry per paragraph), and if the cell ended
paragraph-less an empty paragraph is appended, because a docx cell must end
with a paragraph. -/
def add_html_to_cell (cellParas : List String) (produced : List String) :
    List String :=
  let afterDelete := cellParas.drop 1
  let afterRun := afterDelete ++ produced
  if afterRun = [] then [""] else afterRun

/-! ## Border resolver (h4d.HtmlToDocx.set_cell_borders inner helpers,
constants.BORDER_KEYWORDS and BORDER_STYLES) -/

/-- constants.BORDER_KEYWORDS. -/
def BORDER_KEYWORDS : List (String × String) :=
  [("thin", "1px"), ("medium", "3px"), ("thick", "5px"), ("0", "0px")]

/-- constants.BORDER_STYLES. -/
def BORDER_STYLES_TBL : List (String × String) :=
  [("none", "none"), ("hidden", "none"), ("initial", "none"),
   ("solid", "single"), ("dotted", "dotted"), ("dashed", "dashed"),
   ("double", "double"), ("inset", "inset"), ("outset", "outset")]

/-- The units accepted by the border width regex
(digits, optional dot, digits, then px, pt, cm, in, rem, em or percent). -/
def unitSuffixes : List String := ["px", "pt", "cm", "in", "rem", "em", "%"]

/-- The border_width_pattern regex as a recognizer: an optional integer
part, an optional dot followed by a mandatory fractional digit when the dot
is present (the whole numeric part must hold at least one digit), then one
of the unit suffixes, nothing else. -/
def border_width_pattern (s : String) : Bool :=
  let cs := s.toList
  let d1 := cs.takeWhile Char.isDigit
  let r1 := cs.dropWhile Char.isDigit
  match r1 with
  | '.' :: r2 =>
    let d2 := r2.takeWhile Char.isDigit
    let r3 := r2.dropWhile Char.isDigit
    decide (d2 ≠ []) && unitSuffixes.contains (String.mk r3)
  | _ => decide (d1 ≠ []) && unitSuffixes.contains (String.mk r1)

/-- Numeric value of a list of decimal digits, as a rational. -/
def natOfDigits (l : List Char) : ℚ :=
  ((l.foldl (fun a c => a * 10 + (c.toNat - 48)) 0 : Nat) : ℚ)

/-- Python float() on the digits-and-dot strings arising here: digits with
at most one dot and at least one digit somewhere; fails (ValueError)
otherwise. -/
def parseFloatChars (l : List Char) : Option ℚ :=
  let a := l.takeWhile Char.isDigit
  let r := l.dropWhile Char.isDigit
  match r with
  | [] => if a = [] then none else some (natOfDigits a)
  | '.' :: b =>
    if b.all Char.isDigit ∧ (a ≠ [] ∨ b ≠ []) then
      some (natOfDigits a + natOfDigits b / (10 : ℚ) ^ b.length)
    else none
  | _ => none

/-- check_unit_keywords: convert the thin, medium, thick (and 0) keywords to
their pixel values, looking the lower-cased token up and returning the
original when absent. -/
def check_unit_keywords (v : String) : String :=
  match dget BORDER_KEYWORDS (toLowerStr v) with
  | some w => w
  | none => v

/-- border_unit_converter: strip the important flag, convert size keywords,
return the default size 0 for an empty token, then split the token into its
non-numeric unit part and its numeric value and convert px, cm, in, pt,
rem, em and percent to points (percent of MAX_INDENT); an unsupported unit
yields none.  A numeric part float() would reject also yields none (those
tokens never reach this converter from parse_border_value, whose call sites
are guarded by the width pattern and the keyword table). -/
def border_unit_converter (uv : String) : Option ℚ :=
  let uv1 := remove_important_from_style uv
  let uv2 := check_unit_keywords uv1
  if uv2 = "" then some 0
  else
    let unit := String.mk (uv2.toList.filter (fun c => !(c.isDigit || c = '.')))
    match parseFloatChars (uv2.toList.filter (fun c => !(c.isAlpha || c = '!' || c = '%'))) with
    | none => none
    | some value =>
      if unit = "px" then some (value * (3 / 4))
      else if unit = "cm" then some (value * (2835 / 100))
      else if unit = "in" then some (value * 72)
      else if unit = "pt" then some value
      else if unit = "rem" ∨ unit = "em" then some (value * 12)
      else if unit = "%" then some (MAX_INDENT * (value / 100))
      else none

/-- parse_border_style: map a CSS border style keyword to its Word name,
defaulting to none for an unknown keyword. -/
def parse_border_style_kw (v : String) : String :=
  match dget BORDER_STYLES_TBL v with
  | some w => w
  | none => "none"

/-- utils.is_color: a color-looking token contains rgb, or starts with a
hash, or is the currentcolor keyword, or names a table color. -/
def is_color (c : String) : Bool :=
  containsSubChars c.toList ['r', 'g', 'b'] || decide (c.toList.head? = some '#') ||
    c == "currentcolor" || (colorNames.find? (fun p => p.1 == c)).isSome

/-- One uppercase hexadecimal digit. -/
def hexUpperChar (n : Nat) : Char :=
  if n < 10 then Char.ofNat (48 + n) else Char.ofNat (55 + n)

/-- Hexadecimal digits of n, most significant first (empty for 0); the fuel
argument only bounds the recursion. -/
def hexDigitsAux : Nat → Nat → List Char
  | 0, _ => []
  | _ + 1, 0 => []
  | fuel + 1, n => hexDigitsAux fuel (n / 16) ++ [hexUpperChar (n % 16)]

/-- The Python format 02X: uppercase hexadecimal, at least two digits. -/
def toHexMin2 (n : Nat) : List Char :=
  let d := hexDigitsAux (n + 1) n
  if d.length = 0 then ['0', '0']
  else if d.length = 1 then '0' :: d
  else d

/-- utils.rgb_to_hex: a hash followed by the 02X format of every channel. -/
def rgbToHexStr (l : List Nat) : String :=
  "#" ++ String.mk (l.foldr (fun n acc => toHexMin2 n ++ acc) [])

/-- utils.parse_color with return_hex=True. -/
def parse_color_hex (c : String) : Except Unit String :=
  (parse_color c).map rgbToHexStr

/-- The per-token cleanup of the parse_border_value loop:
remove_important_from_style(part).lower(). -/
def cleanTok (part : String) : String :=
  toLowerStr (remove_important_from_style part)

/-- The class the parse_border_value loop assigns to a token, following its
if-chain: a width-pattern match or size keyword is a size; else a known
border-style keyword is a style; else a color-looking token is a color;
anything else is ignored. -/
inductive TokKind
  | sizeTok
  | styleTok
  | colorTok
  | junkTok
deriving DecidableEq

/-- Classification of one token (see TokKind). -/
def tokKind (part : String) : TokKind :=
  let clean := cleanTok part
  if border_width_pattern clean || (dget BORDER_KEYWORDS clean).isSome then .sizeTok
  else if (dget BORDER_STYLES_TBL clean).isSome then .styleTok
  else if is_color clean then .colorTok
  else .junkTok

/-- One iteration of the parse_border_value token loop over the running
(size, style, color) triple: a size token sets the size to its converted
value (the Python expression converter or default collapses a None or 0.0
conversion to the default size 0); a style token sets the mapped style; a
color token sets the hex color, propagating the exception a malformed
color raises inside parse_color; any other token changes nothing. -/
def borderStep (acc : Option ℚ × String × String) (part : String) :
    Except Unit (Option ℚ × String × String) :=
  let clean := cleanTok part
  if border_width_pattern clean || (dget BORDER_KEYWORDS clean).isSome then
    .ok (some ((border_unit_converter clean).getD 0), acc.2.1, acc.2.2)
  else if (dget BORDER_STYLES_TBL clean).isSome then
    .ok (acc.1, parse_border_style_kw clean, acc.2.2)
  else if is_color clean then
    match parse_color_hex clean with
    | .ok h => .ok (acc.1, acc.2.1, h)
    | .error e => .error e
  else
    .ok acc

/-- Python str.split() with no argument: split on whitespace runs, dropping
empty fields.  The fuel argument (instantiated with the list length, which
always suffices) only makes the recursion structural. -/
def splitWsAux : Nat → List Char → List (List Char)
  | 0, _ => []
  | _ + 1, [] => []
  | fuel + 1, c :: cs =>
    if isPyWs c then splitWsAux fuel cs
    else
      (c :: cs.takeWhile (fun x => !isPyWs x)) ::
        splitWsAux fuel (cs.dropWhile (fun x => !isPyWs x))

/-- Python str.split() with no argument. -/
def pySplitWs (s : String) : List String :=
  (splitWsAux s.toList.length s.toList).map String.mk

/-- The token loop of parse_border_value, threading the running triple and
propagating a raised exception. -/
def borderLoop : (Option ℚ × String × String) → List String →
    Except Unit (Option ℚ × String × String)
  | acc, [] => .ok acc
  | acc, p :: rest =>
    match borderStep acc p with
    | .error e => .error e
    | .ok acc2 => borderLoop acc2 rest

/-- h4d parse_border_value: an empty (or all-whitespace) value or the single
token none yields the all-default invisible border (size 0, style single,
color #000000); otherwise the token loop classifies every token
independently, and a final size of None (no size token seen) becomes 1.0
so that a border with only a style or color is visible. -/
def parse_border_value (value : String) : Except Unit (ℚ × String × String) :=
  let parts := pySplitWs value
  if parts = [] ∨ parts = ["none"] then
    .ok (0, "single", "#000000")
  else
    match borderLoop (none, "single", "#000000") parts with
    | .error e => .error e
    | .ok (sz, st, co) =>
      .ok (match sz with | some v => v | none => 1, st, co)

/-- The winning size among the tokens: the last size-class token sets it. -/
def resolveSize (parts : List String) (init : Option ℚ) : Option ℚ :=
  parts.foldl
    (fun acc p =>
      if tokKind p = .sizeTok then some ((border_unit_converter (cleanTok p)).getD 0)
      else acc)
    init

/-- The winning style among the tokens: the last style-class token sets it. -/
def resolveStyle (parts : List String) (init : String) : String :=
  parts.foldl
    (fun acc p =>
      if tokKind p = .styleTok then parse_border_style_kw (cleanTok p) else acc)
    init

/-- The value a color-class token contributes: its parsed hex color, or the
running value when its parse raises. -/
def colorStepVal (acc : String) (p : String) : String :=
  match parse_color_hex (cleanTok p) with
  | .ok h => h
  | .error _ => acc

/-- The winning color among the tokens: the last color-class token whose
parse succeeds sets it. -/
def resolveColor (parts : List String) (init : String) : String :=
  parts.foldl
    (fun acc p => if tokKind p = .colorTok then colorStepVal acc p else acc)
    init

end Html4Docx

namespace Html4Docx

/-- C6: unit_converter converts with exactly the documented factors
(px 0.75, pt 1, in 72, pc 12, cm 28.3465, mm 2.83465, em 12, rem 12,
percent passed through with no conversion factor), the resulting point value
is clamped to MAX_INDENT = 5.5 inches = 396 points, and every unsupported
unit yields none. -/
theorem C6_unit_converter_conversions :
    (∀ v : ℚ,
      unit_converter v "px" = some (min (v * (3 / 4)) 396) ∧
      unit_converter v "pt" = some (min v 396) ∧
      unit_converter v "in" = some (min (v * 72) 396) ∧
      unit_converter v "pc" = some (min (v * 12) 396) ∧
      unit_converter v "cm" = some (min (v * (283465 / 10000)) 396) ∧
      unit_converter v "mm" = some (min (v * (283465 / 100000)) 396) ∧
      unit_converter v "em" = some (min (v * 12) 396) ∧
      unit_converter v "rem" = some (min (v * 12) 396) ∧
      unit_converter v "%" = some (min v 396)) ∧
    MAX_INDENT * 72 = 396 ∧
    (∀ (v : ℚ) (u : String),
      u ∉ (["px", "pt", "in", "pc", "cm", "mm", "em", "rem", "%"] : List String) →
      unit_converter v u = none) := by
  refine ⟨fun v => ?_, by norm_num [MAX_INDENT], fun v u hu => ?_⟩
  · refine ⟨?_, ?_, ?_, ?_, ?_, ?_, ?_, ?_, ?_⟩ <;>
      simp [unit_converter, conversion_to_pt, MAX_INDENT] <;> norm_num
  · simp only [List.mem_cons, List.mem_singleton, not_or] at hu
    obtain ⟨h1, h2, h3, h4, h5, h6, h7, h8, h9, -⟩ := hu
    simp [unit_converter, conversion_to_pt, h1, h2, h3, h4, h5, h6, h7, h8, h9]

/-- Witness for C6: a concrete unsupported unit yields none, and a concrete
oversized length is clamped to 396 points. -/
theorem C6_unit_converter_conversions_witness :
    unit_converter 100 "foo" = none ∧ unit_converter 800 "pt" = some 396 := by
  constructor
  · exact C6_unit_converter_conversions.2.2 100 "foo" (by decide)
  · have h := (C6_unit_converter_conversions.1 800).2.1
    rw [h]; norm_num

/-! ## Dictionary and stable-sort lemmas -/

theorem dget_dset (d : Dict) (k v k' : String) :
    dget (dset d k v) k' = if k' = k then some v else dget d k' := by
  induction d with
  | nil =>
    by_cases h : k' = k
    · simp [dset, dget, h]
    · have h2 : ¬(k = k') := fun e => h e.symm
      simp [dset, dget, h, h2]
  | cons p rest ih =>
    by_cases h : p.1 = k
    · simp only [dset, if_pos h, dget]
      by_cases h' : k' = k
      · rw [if_pos h'.symm, if_pos h']
      · have h2 : ¬(k = k') := fun e => h' e.symm
        have h3 : ¬(p.1 = k') := by rw [h]; exact h2
        rw [if_neg h2, if_neg h', if_neg h3]
    · simp only [dset, if_neg h, dget]
      by_cases h' : p.1 = k'
      · have h2 : ¬(k' = k) := fun e => h (h'.trans e)
        rw [if_pos h', if_neg h2, if_pos h']
      · simp only [if_neg h']
        rw [ih]

theorem dget_eq_none_of_not_mem (d : Dict) (p : String)
    (h : p ∉ d.map Prod.fst) : dget d p = none := by
  induction d with
  | nil => rfl
  | cons q rest ih =>
    simp only [List.map_cons, List.mem_cons, not_or] at h
    have : ¬(q.1 = p) := fun e => h.1 e.symm
    simp [dget, this, ih h.2]

theorem sinsert_append (x : Nat × Dict) (acc : List (Nat × Dict))
    (h : ∀ y ∈ acc, y.1 ≤ x.1) : sinsert x acc = acc ++ [x] := by
  induction acc with
  | nil => rfl
  | cons y ys ih =>
    have hy : y.1 ≤ x.1 := h y (List.mem_cons_self y ys)
    simp only [sinsert, if_pos hy, List.cons_append]
    rw [ih (fun z hz => h z (List.mem_cons_of_mem y hz))]

theorem foldl_sinsert_sorted (l acc : List (Nat × Dict))
    (h : (acc ++ l).Pairwise (fun a b => a.1 ≤ b.1)) :
    l.foldl (fun a x => sinsert x a) acc = acc ++ l := by
  induction l generalizing acc with
  | nil => simp
  | cons x xs ih =>
    have hx : ∀ y ∈ acc, y.1 ≤ x.1 := by
      intro y hy
      have := (List.pairwise_append.mp h).2.2 y hy x (List.mem_cons_self x xs)
      exact this
    simp only [List.foldl_cons]
    rw [sinsert_append x acc hx]
    have h' : ((acc ++ [x]) ++ xs).Pairwise (fun a b => a.1 ≤ b.1) := by
      rw [List.append_assoc, List.singleton_append]
      exact h
    rw [ih (acc ++ [x]) h']
    simp

theorem pairwise_le_of_const (n : Nat) (l : List (Nat × Dict))
    (h : ∀ y ∈ l, y.1 = n) : l.Pairwise (fun a b => a.1 ≤ b.1) := by
  induction l with
  | nil => exact List.Pairwise.nil
  | cons x xs ih =>
    refine List.Pairwise.cons (fun y hy => ?_)
      (ih fun y hy => h y (List.mem_cons_of_mem x hy))
    rw [h x (List.mem_cons_self x xs), h y (List.mem_cons_of_mem x hy)]

theorem applicable_rules_pairwise (db : CSSDB) (el : ElemCtx) :
    (applicable_rules db el).Pairwise (fun a b => a.1 ≤ b.1) := by
  unfold applicable_rules
  have htag : ∀ y ∈ (match rlookup db.tagRules el.tag with
      | some s => [(calculate_specificity (.tagSel el.tag), s)]
      | none => []), y.1 = 1 := by
    cases h : rlookup db.tagRules el.tag <;> simp [h, calculate_specificity]
  have hcls : ∀ y ∈ (el.classes.filterMap fun c =>
      (rlookup db.classRules c).map fun s => (calculate_specificity (.clsSel c), s)),
      y.1 = 10 := by
    intro y hy
    obtain ⟨c, -, hc⟩ := List.mem_filterMap.mp hy
    obtain ⟨s, -, hs⟩ := Option.map_eq_some'.mp hc
    rw [← hs]
    rfl
  have hid : ∀ y ∈ (match el.idAttr with
      | some i =>
        match rlookup db.idRules i with
        | some s => [(calculate_specificity (.idSel i), s)]
        | none => []
      | none => []), y.1 = 100 := by
    cases el.idAttr with
    | none => simp
    | some i => cases h : rlookup db.idRules i <;> simp [h, calculate_specificity]
  rw [List.pairwise_append]
  refine ⟨?_, pairwise_le_of_const 100 _ hid, ?_⟩
  · rw [List.pairwise_append]
    refine ⟨pairwise_le_of_const 1 _ htag, pairwise_le_of_const 10 _ hcls, ?_⟩
    intro a ha b hb
    rw [htag a ha, hcls b hb]
    norm_num
  · intro a ha b hb
    rw [hid b hb]
    rcases List.mem_append.mp ha with h | h
    · rw [htag a h]; norm_num
    · rw [hcls a h]; norm_num

theorem ssort_applicable (db : CSSDB) (el : ElemCtx) :
    ssort (applicable_rules db el) = applicable_rules db el := by
  unfold ssort
  have := foldl_sinsert_sorted (applicable_rules db el) []
    (by rw [List.nil_append]; exact applicable_rules_pairwise db el)
  rw [this, List.nil_append]

theorem dget_applyRuleStyles_fst (d : Dict) (acc : Dict × Dict) (p : String)
    (hnd : (d.map Prod.fst).Nodup)
    (hni : (dget d p).all (fun v => !hasImportant v) = true) :
    dget (applyRuleStyles acc d).1 p =
      match dget d p with
      | some v => some v
      | none => dget acc.1 p := by
  induction d generalizing acc with
  | nil => rfl
  | cons q rest ih =>
    have hnd' : (rest.map Prod.fst).Nodup := (List.nodup_cons.mp hnd).2
    by_cases hq : q.1 = p
    · have hget : dget (q :: rest) p = some q.2 := by simp [dget, hq]
      rw [hget] at hni ⊢
      have himp : hasImportant q.2 = false := by
        simpa using hni
      have hrest_none : dget rest p = none := by
        apply dget_eq_none_of_not_mem
        rw [← hq]
        exact (List.nodup_cons.mp hnd).1
      simp only [applyRuleStyles, List.foldl_cons, himp, Bool.false_eq_true, if_false]
      have := ih (dset acc.1 q.1 q.2, acc.2) hnd'
        (by rw [hrest_none]; rfl)
      rw [show applyRuleStyles (dset acc.1 q.1 q.2, acc.2) rest =
            rest.foldl (fun (nm : Dict × Dict) (r : String × String) =>
              if hasImportant r.2 then (nm.1, dset nm.2 r.1 (strip_important_value r.2))
              else (dset nm.1 r.1 r.2, nm.2)) (dset acc.1 q.1 q.2, acc.2) from rfl] at this
      rw [this, hrest_none]
      rw [dget_dset, hq]
      simp
    · have hget : dget (q :: rest) p = dget rest p := by simp [dget, hq]
      rw [hget] at hni ⊢
      simp only [applyRuleStyles, List.foldl_cons]
      by_cases himp : hasImportant q.2
      · simp only [himp, if_true]
        have := ih (acc.1, dset acc.2 q.1 (strip_important_value q.2)) hnd' hni
        rw [show applyRuleStyles (acc.1, dset acc.2 q.1 (strip_important_value q.2)) rest =
              rest.foldl (fun (nm : Dict × Dict) (r : String × String) =>
                if hasImportant r.2 then (nm.1, dset nm.2 r.1 (strip_important_value r.2))
                else (dset nm.1 r.1 r.2, nm.2))
              (acc.1, dset acc.2 q.1 (strip_important_value q.2)) from rfl] at this
        exact this
      · simp only [himp, Bool.false_eq_true, if_false]
        have := ih (dset acc.1 q.1 q.2, acc.2) hnd' hni
        rw [show applyRuleStyles (dset acc.1 q.1 q.2, acc.2) rest =
              rest.foldl (fun (nm : Dict × Dict) (r : String × String) =>
                if hasImportant r.2 then (nm.1, dset nm.2 r.1 (strip_important_value r.2))
                else (dset nm.1 r.1 r.2, nm.2)) (dset acc.1 q.1 q.2, acc.2) from rfl] at this
        rw [this]
        cases hrp : dget rest p with
        | some v => rfl
        | none =>
          rw [dget_dset]
          have : ¬(p = q.1) := fun e => hq e.symm
          simp [this]

theorem dget_foldRules_fst (rules : List (Nat × Dict)) (acc : Dict × Dict) (p : String)
    (hnd : ∀ r ∈ rules, (r.2.map Prod.fst).Nodup)
    (hni : ∀ r ∈ rules, (dget r.2 p).all (fun v => !hasImportant v) = true) :
    dget (rules.foldl (fun a sr => applyRuleStyles a sr.2) acc).1 p =
      rules.foldl
        (fun o sr =>
          match dget sr.2 p with
          | some v => some v
          | none => o)
        (dget acc.1 p) := by
  induction rules generalizing acc with
  | nil => rfl
  | cons r rest ih =>
    simp only [List.foldl_cons]
    rw [ih (applyRuleStyles acc r.2)
      (fun s hs => hnd s (List.mem_cons_of_mem r hs))
      (fun s hs => hni s (List.mem_cons_of_mem r hs))]
    rw [dget_applyRuleStyles_fst r.2 acc p
      (hnd r (List.mem_cons_self r rest))
      (hni r (List.mem_cons_self r rest))]

/-- C1 (amended):
get_styles_for_element_with_important resolves a property to the value of
the last applicable rule in gathering order: the tag rule, then the class
rules in the order the classes appear in the element's class attribute,
then the id rule.  Since the gathered specificities are 1, 10 and 100 in
that order, the list is already sorted and the stable sort leaves it
unchanged, so the highest-specificity matching rule always wins across the
tag/class/id tiers, and for the stylesheet of the claim the resolved color
of the element p.hl#s is red; but two class rules of equal specificity are
resolved by class-attribute order, not by stylesheet declaration order. -/
theorem C1_cascade_resolution :
    (∀ (db : CSSDB) (el : ElemCtx) (p : String),
      (∀ r ∈ applicable_rules db el, (r.2.map Prod.fst).Nodup) →
      (∀ r ∈ applicable_rules db el,
        (dget r.2 p).all (fun v => !hasImportant v) = true) →
      dget (get_styles_for_element_with_important db el [] []).1 p =
        last_applicable_value db el p) ∧
    dget (get_styles_for_element_with_important exampleDb exampleEl [] []).1 "color" =
      some "red" := by
  constructor
  · intro db el p hnd hni
    unfold get_styles_for_element_with_important
    rw [ssort_applicable db el]
    simp only [dmerge, List.foldl_nil]
    exact dget_foldRules_fst (applicable_rules db el) ([], []) p hnd hni
  · decide

/-- C1 counterexample to the claim as stated: for the stylesheet
.b brace color:blue brace, .a brace color:green brace (rule .a declared
later in the source) on an element of class attribute "a b", the resolved
color is blue, the value of rule .b, which is the class listed later in the
class attribute but declared earlier in the stylesheet; the claim predicts
green. -/
theorem C1_equal_specificity_counterexample :
    dget (get_styles_for_element_with_important tieDb tieEl [] []).1 "color" =
      some "blue" ∧ ("blue" : String) ≠ "green" := by
  constructor
  · decide
  · decide

/-- Witness for C1: the amended theorem instantiated at the claim's own
stylesheet and element, with the resolved value evaluated to red. -/
theorem C1_cascade_resolution_witness :
    dget (get_styles_for_element_with_important exampleDb exampleEl [] []).1 "color" =
      last_applicable_value exampleDb exampleEl "color" ∧
    last_applicable_value exampleDb exampleEl "color" = some "red" :=
  ⟨C1_cascade_resolution.1 exampleDb exampleEl "color" (by decide) (by decide),
   by decide⟩

/-! ## Table-geometry lemmas -/

theorem listMax_append (xs ys : List Nat) :
    listMax (xs ++ ys) = max (listMax xs) (listMax ys) := by
  induction xs with
  | nil => simp [listMax]
  | cons x xs ih =>
    simp only [listMax, List.cons_append, List.foldr_cons] at *
    rw [ih, Nat.max_assoc]

theorem innerRowFold_eq (i n : Nat) (row : List TableCell) :
    ∀ m : Nat, i + 1 ≤ n → n ≤ m →
    row.foldl (fun a c => if 1 < c.rowspan then max a (i + c.rowspan) else a) m =
      max m (listMax (row.map (fun c => i + c.rowspan))) := by
  induction row with
  | nil =>
    intro m _ _
    simp [listMax]
  | cons c cs ih =>
    intro m hin hnm
    simp only [List.foldl_cons, List.map_cons, listMax, List.foldr_cons]
    by_cases hc : 1 < c.rowspan
    · rw [if_pos hc]
      rw [ih (max m (i + c.rowspan)) hin (le_trans hnm (Nat.le_max_left _ _))]
      simp only [listMax]
      omega
    · rw [if_neg hc]
      rw [ih m hin hnm]
      simp only [listMax]
      have : i + c.rowspan ≤ m := by omega
      omega

theorem dimsRowspanFold_eq (rows : List (List TableCell)) :
    ∀ i m n : Nat, i + rows.length ≤ n → n ≤ m →
    dimsRowspanFold i rows m = max m (listMax (cellEnds i rows)) := by
  induction rows with
  | nil =>
    intro i m n _ _
    simp [dimsRowspanFold, cellEnds, listMax]
  | cons row rest ih =>
    intro i m n hlen hnm
    simp only [dimsRowspanFold, cellEnds]
    rw [innerRowFold_eq i n row m (by simp at hlen; omega) hnm]
    rw [ih (i + 1) (max m (listMax (row.map fun c => i + c.rowspan))) n
      (by simp at hlen ⊢; omega) (le_trans hnm (Nat.le_max_left _ _))]
    rw [listMax_append, Nat.max_assoc]

/-- C2: the computed table geometry has row count equal to the maximum of
the literal row count and the maximum over all cells of row index plus
rowspan, and column count equal to the maximum over rows of the colspan sum;
and for the two-row scenario table the output is a 2 by 2 table holding
Hello at (0,0), One at (1,0), Two at (1,1), with (0,1) left as the padded
empty cell. -/
theorem C2_table_geometry :
    (∀ rows : List (List TableCell),
      get_table_dimensions rows =
        (max rows.length (listMax (cellEnds 0 rows)), listMax (rows.map sumColspan))) ∧
    get_table_dimensions scenarioTable = (2, 2) ∧
    handle_table_grid scenarioTable =
      .ok ⟨[[true, false], [true, true]],
           [["Hello", ""], ["One", "Two"]],
           [(0, 0), (1, 0), (1, 1)]⟩ := by
  refine ⟨fun rows => ?_, by decide, by rfl⟩
  cases rows with
  | nil => simp [get_table_dimensions, cellEnds, listMax]
  | cons r rest =>
    simp only [get_table_dimensions]
    refine Prod.ext ?_ ?_
    · simp only
      rw [dimsRowspanFold_eq (r :: rest) 0 (r :: rest).length (r :: rest).length
        (by omega) (le_refl _)]
    · simp only
      rw [show (r :: rest).foldl (fun mc row => max mc (sumColspan row)) 0 =
          ((r :: rest).map sumColspan).foldl max 0 from (List.foldl_map _ _ _ _).symm]
      have : ∀ (l : List Nat) (a : Nat), l.foldl max a = max a (listMax l) := by
        intro l
        induction l with
        | nil => intro a; simp [listMax]
        | cons x xs ihl =>
          intro a
          simp only [List.foldl_cons, listMax, List.foldr_cons]
          rw [ihl (max a x)]
          simp only [listMax]
          omega
      rw [this, Nat.zero_max]

/-- C3: the table handler does not fail loudly on overlapping footprints.
On the malformed overlap table the placement loop returns normally and the
occupancy slot (1,1) is marked twice (once by the rowspan-2 cell of row 0,
once by the colspan-2 cell of row 1): the second mark silently overwrites
the first instead of raising, contradicting the claim. -/
theorem C3_overlap_silent_overwrite :
    (handle_table_grid overlapTable).isOk = true ∧
    (handle_table_grid overlapTable).map
        (fun st => (st.claims.count (1, 1), st.claims.count (0, 1))) =
      .ok (2, 1) := by
  constructor
  · decide
  · rfl

/-! ## List-numbering lemmas -/

theorem handle_li_step_preserves (st : ListState) :
    (handle_li_step st).counter = st.counter ∧
    (handle_li_step st).identities = st.identities := by
  simp only [handle_li_step]
  by_cases h : st.listStack.headD "ul" = "ol"
  · rw [if_pos h]
    cases cacheGet st.cache
        (match st.currentOl with | some n => (n : Int) | none => -1) <;>
      exact ⟨rfl, rfl⟩
  · rw [if_neg h]
    exact ⟨rfl, rfl⟩

theorem listStep_inv (st : ListState) (ev : ListEv)
    (h1 : st.identities.Chain' (· < ·))
    (h2 : ∀ x ∈ st.identities, x ≤ st.counter) :
    ((listStep st ev).identities.Chain' (· < ·)) ∧
    (∀ x ∈ (listStep st ev).identities, x ≤ (listStep st ev).counter) := by
  cases ev with
  | startOl =>
    constructor
    · refine List.chain'_append.mpr ⟨h1, List.chain'_singleton _, ?_⟩
      intro x hx y hy
      simp only [List.head?_cons, Option.mem_def, Option.some.injEq] at hy
      have hxm : x ∈ st.identities := by
        obtain ⟨hne, hxeq⟩ := List.mem_getLast?_eq_getLast hx
        rw [hxeq]
        exact List.getLast_mem hne
      have := h2 x hxm
      omega
    · intro x hx
      simp only [listStep, List.mem_append, List.mem_singleton] at hx
      simp only [listStep]
      rcases hx with h | h
      · have := h2 x h
        omega
      · omega
  | li =>
    obtain ⟨hc, hi⟩ := handle_li_step_preserves st
    constructor
    · show (handle_li_step st).identities.Chain' (· < ·)
      rw [hi]; exact h1
    · show ∀ x ∈ (handle_li_step st).identities, x ≤ (handle_li_step st).counter
      rw [hi, hc]; exact h2
  | startUl => exact ⟨h1, h2⟩
  | endOl =>
    cases h : st.currentOl <;>
      exact ⟨by simpa [listStep, h] using h1, by simpa [listStep, h] using h2⟩
  | endUl => exact ⟨h1, h2⟩

theorem foldl_listStep_inv (evs : List ListEv) :
    ∀ st : ListState,
    st.identities.Chain' (· < ·) → (∀ x ∈ st.identities, x ≤ st.counter) →
    (evs.foldl listStep st).identities.Chain' (· < ·) := by
  induction evs with
  | nil => intro st h1 _; exact h1
  | cons ev rest ih =>
    intro st h1 h2
    obtain ⟨g1, g2⟩ := listStep_inv st ev h1 h2
    exact ih (listStep st ev) g1 g2

/-- C4 (amended): every ol open allocates a fresh identity from a
monotonically increasing counter, so the history of allocated identities is
strictly increasing and no identity is ever reused; opening an ol allocates
no numbering definition (the sink is untouched), the restart-at-1 definition
is created lazily at the first li and the cached id is reused by the later
li entries of the same ol; for sibling (non-nested) ol blocks the cache
entry is evicted at the close, and the two blocks reference two distinct
restart-at-1 numbering definitions, so each numbers from 1 independently.
(For an ol wrapping a nested ol the eviction and reuse clauses fail; see the
counterexample.) -/
theorem C4_list_identity :
    (∀ evs : List ListEv, (runList evs).identities.Chain' (· < ·)) ∧
    runList [ListEv.startOl] = ⟨1, some 1, ["ol"], [], 1, [], [], [1]⟩ ∧
    (runList [ListEv.startOl, ListEv.li]).sink = [1] ∧
    (runList [ListEv.startOl, ListEv.li, ListEv.li]).sink = [1] ∧
    (runList [ListEv.startOl, ListEv.li, ListEv.li]).paras = [some 1, some 1] ∧
    (runList [ListEv.startOl, ListEv.li, ListEv.li, ListEv.li, ListEv.endOl]).cache
      = [] ∧
    (runList siblingOlEvs).paras = [some 1, some 1, some 1, some 2] ∧
    (runList siblingOlEvs).sink = [1, 2] ∧
    (runList siblingOlEvs).cache = [] := by
  refine ⟨fun evs => ?_, by decide, by decide, by decide, by decide, by decide,
    by decide, by decide, by decide⟩
  exact foldl_listStep_inv evs initListState (by decide) (by decide)

/-- C4 counterexample to the claim as stated: in the nested scenario the
outer ol closes while the tracker was already cleared by the inner close, so
its cache entry (1, 1) is never evicted (the final cache is nonempty), and
the outer item emitted after the inner close does not reuse the cached
definition of its own ol: the item paragraphs reference ids 1, 2, 3 although
items one and three belong to the same ol. -/
theorem C4_nested_eviction_counterexample :
    (runList nestedOlEvs).cache = [(1, 1), (-1, 3)] ∧
    (runList nestedOlEvs).cache ≠ [] ∧
    (runList nestedOlEvs).paras = [some 1, some 2, some 3] := by
  refine ⟨by decide, by decide, by decide⟩

/-! ## Span run-styling theorems -/

/-- Splitting the span loop at an append: the loop over the concatenation
runs the first part, then, if that did not abort, the second part from the
state the first part reached. -/
theorem colorSpanLoop_append (l1 l2 : List Dict) :
    ∀ st, colorSpanLoop st (l1 ++ l2) =
      match colorSpanLoop st l1 with
      | .error e => .error e
      | .ok st2 => colorSpanLoop st2 l2 := by
  induction l1 with
  | nil => intro st; rfl
  | cons span rest ih =>
    intro st
    simp only [List.cons_append, colorSpanLoop]
    cases hv : dget span "color" with
    | none => exact ih st
    | some v =>
      show (match apply_color_handler st v with
        | .error e => Except.error e
        | .ok run2 => colorSpanLoop run2 (rest ++ l2)) =
        match (match apply_color_handler st v with
          | .error e => Except.error e
          | .ok run2 => colorSpanLoop run2 rest) with
        | .error e => Except.error e
        | .ok st2 => colorSpanLoop st2 l2
      cases apply_color_handler st v with
      | error e => rfl
      | ok st2 => exact ih st2

/-- C5 (amended): while several spans are open, a run-level property
resolves innermost-wins among the valid declarations: whenever the outer
spans were processed without aborting, an innermost span declaring color
with a value that parses to a valid three-channel 0-255 color decides the
run color no matter what any outer span declared, important or not — an
important flag on an outer span is stripped by the color handler, not
pinned (second conjunct).  A declaration that parses but fails the
constructor's range check leaves the previous color in place: with outer
blue and inner rgb(300,0,0) the run stays blue (third conjunct). -/
theorem C5_innermost_wins :
    (∀ (spans : List Dict) (span : Dict) (v : String) (rgb : List Nat)
        (run0 : Option (List Nat)),
      run_color_after_spans spans = .ok run0 →
      dget span "color" = some v →
      parse_color v = .ok rgb →
      rgb.length = 3 →
      rgb.all (fun n => n ≤ 255) = true →
      run_color_after_spans (spans ++ [span]) = .ok (some rgb)) ∧
    parse_color "blue !important" = .ok [0, 0, 255] ∧
    run_color_after_spans [[("color", "blue")], [("color", "rgb(300,0,0)")]] =
      .ok (some [0, 0, 255]) := by
  refine ⟨?_, rfl, rfl⟩
  intro spans span v rgb run0 h0 hv hp hlen hall
  unfold run_color_after_spans at h0 ⊢
  rw [colorSpanLoop_append spans [span] none, h0]
  show (match dget span "color" with
    | some w =>
      match apply_color_handler run0 w with
      | .error e => Except.error e
      | .ok run2 => colorSpanLoop run2 []
    | none => colorSpanLoop run0 []) = .ok (some rgb)
  rw [hv]
  have hac : apply_color_handler run0 v = .ok (some rgb) := by
    unfold apply_color_handler
    rw [hp]
    show (if rgb.length = 3 then
        if rgb.all (fun n => n ≤ 255) then Except.ok (some rgb) else Except.ok run0
      else Except.error ()) = Except.ok (some rgb)
    rw [if_pos hlen, if_pos hall]
  show (match apply_color_handler run0 v with
    | .error e => Except.error e
    | .ok run2 => colorSpanLoop run2 []) = Except.ok (some rgb)
  rw [hac]
  rfl

/-- C5 counterexample to the claim as stated: with an outer span declaring
color blue with an important flag and an inner span declaring color red
without one, the run color is red (the inner, non-important declaration
overrode the outer important one); the claim predicts blue. -/
theorem C5_outer_important_counterexample :
    run_color_after_spans importantSpanStack = .ok (some [255, 0, 0]) ∧
    parse_color "blue !important" = .ok [0, 0, 255] ∧
    ([255, 0, 0] : List Nat) ≠ [0, 0, 255] :=
  ⟨rfl, rfl, by decide⟩

/-- Witness for C5: the amended innermost-wins theorem applied to the
concrete two-span stack. -/
theorem C5_innermost_wins_witness :
    run_color_after_spans ([[("color", "blue !important")]] ++ [[("color", "red")]])
      = .ok (some [255, 0, 0]) :=
  C5_innermost_wins.1 [[("color", "blue !important")]] [("color", "red")]
    "red" [255, 0, 0] (some [0, 0, 255]) rfl rfl rfl rfl rfl

/-! ## Color-parsing theorems -/

/-- C8 (amended): parse_color accepts rgb(r,g,b), 3-digit hex (expanded to
6-digit), 6-digit hex and the fixed named-color table, and a token that
neither contains rgb nor starts with a hash nor names a table color falls
back to black without failing; but a token containing rgb whose fields are
not all numeric (and likewise malformed hex after a hash) raises rather
than falling back — see the counterexample. -/
theorem C8_parse_color_fallback :
    (∀ t : String,
      containsSubChars (cleanColor t).toList ['r', 'g', 'b'] = false →
      (cleanColor t).toList.head? ≠ some '#' →
      colorNames.find? (fun p => p.1 == cleanColor t) = none →
      parse_color t = .ok [0, 0, 0]) ∧
    parse_color "rgb(255, 0, 0)" = .ok [255, 0, 0] ∧
    parse_color "#abc" = .ok [170, 187, 204] ∧
    parse_color "#ff0000" = .ok [255, 0, 0] ∧
    parse_color "red" = .ok [255, 0, 0] := by
  refine ⟨fun t h1 h2 h3 => ?_, rfl, rfl, rfl, rfl⟩
  unfold parse_color
  simp only [h1, Bool.false_eq_true, if_false, if_neg h2, h3, Option.map_none']

/-- C8 counterexample to the claim as stated: the unrecognized token
rgb(a,b,c) contains rgb, so parse_color strips it to the comma skeleton,
calls int on the empty fields and raises ValueError instead of returning
black. -/
theorem C8_parse_color_raises_counterexample :
    parse_color "rgb(a,b,c)" = .error () := rfl

/-- Witness for C8: the fallback theorem at a concrete unrecognized token. -/
theorem C8_parse_color_fallback_witness :
    parse_color "notacolor" = .ok [0, 0, 0] :=
  C8_parse_color_fallback.1 "notacolor" (by decide) (by decide) (by decide)

/-! ## Whitespace-normalization lemmas -/

theorem length_dropWhile_le_list {α : Type} (p : α → Bool) (l : List α) :
    (l.dropWhile p).length ≤ l.length := by
  induction l with
  | nil => simp
  | cons c cs ih =>
    by_cases h : p c
    · rw [List.dropWhile_cons, if_pos h]
      exact le_trans ih (Nat.le_succ _)
    · rw [List.dropWhile_cons, if_neg h]

theorem squashWsAux_congr :
    ∀ (f1 f2 : Nat) (l : List Char), l.length ≤ f1 → l.length ≤ f2 →
    squashWsAux f1 l = squashWsAux f2 l := by
  intro f1
  induction f1 with
  | zero =>
    intro f2 l h1 _
    have : l = [] := List.eq_nil_of_length_eq_zero (Nat.le_zero.mp h1)
    subst this
    cases f2 <;> rfl
  | succ f ih =>
    intro f2 l h1 h2
    cases l with
    | nil => cases f2 <;> rfl
    | cons c cs =>
      cases f2 with
      | zero => simp at h2
      | succ g =>
        simp only [squashWsAux]
        by_cases hc : isPyWs c
        · rw [if_pos hc, if_pos hc]
          rw [ih g (cs.dropWhile isPyWs)
            (le_trans (length_dropWhile_le_list _ _) (by simpa using h1))
            (le_trans (length_dropWhile_le_list _ _) (by simpa using h2))]
        · rw [if_neg hc, if_neg hc]
          rw [ih g cs (by simpa using h1) (by simpa using h2)]

theorem squashNlAux_congr :
    ∀ (f1 f2 : Nat) (l : List Char), l.length ≤ f1 → l.length ≤ f2 →
    squashNlAux f1 l = squashNlAux f2 l := by
  intro f1
  induction f1 with
  | zero =>
    intro f2 l h1 _
    have : l = [] := List.eq_nil_of_length_eq_zero (Nat.le_zero.mp h1)
    subst this
    cases f2 <;> rfl
  | succ f ih =>
    intro f2 l h1 h2
    cases l with
    | nil => cases f2 <;> rfl
    | cons c cs =>
      cases f2 with
      | zero => simp at h2
      | succ g =>
        simp only [squashNlAux]
        by_cases hc : isPyWs c
        · rw [if_pos hc, if_pos hc]
          rw [ih g (cs.dropWhile isPyWs)
            (le_trans (length_dropWhile_le_list _ _) (by simpa using h1))
            (le_trans (length_dropWhile_le_list _ _) (by simpa using h2))]
        · rw [if_neg hc, if_neg hc]
          rw [ih g cs (by simpa using h1) (by simpa using h2)]

theorem squashWsRuns_cons_nonws {c : Char} (l : List Char) (h : isPyWs c = false) :
    squashWsRuns (c :: l) = c :: squashWsRuns l := by
  simp only [squashWsRuns, List.length_cons, squashWsAux, h, Bool.false_eq_true,
    if_false]

theorem squashWsRuns_cons_ws {c : Char} (l : List Char) (h : isPyWs c = true) :
    squashWsRuns (c :: l) = ' ' :: squashWsRuns (l.dropWhile isPyWs) := by
  simp only [squashWsRuns, List.length_cons, squashWsAux, h, if_true]
  rw [squashWsAux_congr l.length (l.dropWhile isPyWs).length (l.dropWhile isPyWs)
    (length_dropWhile_le_list _ _) (le_refl _)]

theorem squashNlRuns_cons_nonws {c : Char} (l : List Char) (h : isPyWs c = false) :
    squashNlRuns (c :: l) = c :: squashNlRuns l := by
  simp only [squashNlRuns, List.length_cons, squashNlAux, h, Bool.false_eq_true,
    if_false]

theorem squashNlRuns_cons_ws {c : Char} (cs : List Char) (h : isPyWs c = true) :
    squashNlRuns (c :: cs) =
      (if (c :: cs.takeWhile isPyWs).contains '\n' then [' ']
       else c :: cs.takeWhile isPyWs) ++ squashNlRuns (cs.dropWhile isPyWs) := by
  simp only [squashNlRuns, List.length_cons, squashNlAux, h, if_true]
  rw [squashNlAux_congr cs.length (cs.dropWhile isPyWs).length (cs.dropWhile isPyWs)
    (length_dropWhile_le_list _ _) (le_refl _)]

theorem head_dropWhile_not {α : Type} (p : α → Bool) :
    ∀ (l : List α) (d : α), (l.dropWhile p).head? = some d → p d = false := by
  intro l
  induction l with
  | nil => intro d h; simp at h
  | cons x xs ih =>
    intro d h
    by_cases hx : p x
    · rw [List.dropWhile_cons, if_pos hx] at h
      exact ih d h
    · rw [List.dropWhile_cons, if_neg hx] at h
      simp only [List.head?_cons, Option.some.injEq] at h
      rw [← h]
      exact Bool.not_eq_true _ ▸ (by simpa using hx)

theorem dropWhile_ws_append (R Y : List Char)
    (hall : ∀ x ∈ R, isPyWs x = true)
    (hY : ∀ d, Y.head? = some d → isPyWs d = false) :
    (R ++ Y).dropWhile isPyWs = Y := by
  induction R with
  | nil =>
    cases Y with
    | nil => rfl
    | cons d ds =>
      have := hY d rfl
      simp [List.dropWhile_cons, this]
  | cons r R' ih =>
    have hr := hall r (List.mem_cons_self r R')
    rw [List.cons_append, List.dropWhile_cons, if_pos hr]
    exact ih (fun x hx => hall x (List.mem_cons_of_mem r hx))

theorem squashWsRuns_wsRun_append (R Y : List Char) (hne : R ≠ [])
    (hall : ∀ x ∈ R, isPyWs x = true)
    (hY : ∀ d, Y.head? = some d → isPyWs d = false) :
    squashWsRuns (R ++ Y) = ' ' :: squashWsRuns Y := by
  cases R with
  | nil => exact absurd rfl hne
  | cons r R' =>
    rw [List.cons_append,
      squashWsRuns_cons_ws (R' ++ Y) (hall r (List.mem_cons_self r R'))]
    rw [dropWhile_ws_append R' Y (fun x hx => hall x (List.mem_cons_of_mem r hx)) hY]

theorem squashNlRuns_head (Y : List Char)
    (hY : ∀ d, Y.head? = some d → isPyWs d = false) :
    ∀ d, (squashNlRuns Y).head? = some d → isPyWs d = false := by
  cases Y with
  | nil => intro d h; simp [squashNlRuns, squashNlAux] at h
  | cons y ys =>
    intro d h
    have hy := hY y rfl
    rw [squashNlRuns_cons_nonws ys hy] at h
    simp only [List.head?_cons, Option.some.injEq] at h
    rw [← h]
    exact hy

theorem squashComp :
    ∀ (n : Nat) (l : List Char), l.length ≤ n →
    squashWsRuns (squashNlRuns l) = squashWsRuns l := by
  intro n
  induction n with
  | zero =>
    intro l hl
    have : l = [] := List.eq_nil_of_length_eq_zero (Nat.le_zero.mp hl)
    subst this
    rfl
  | succ n ih =>
    intro l hl
    cases l with
    | nil => rfl
    | cons c cs =>
      by_cases hc : isPyWs c
      · rw [squashNlRuns_cons_ws cs hc]
        have hrest_head : ∀ d, (cs.dropWhile isPyWs).head? = some d →
            isPyWs d = false := fun d hd => head_dropWhile_not isPyWs cs d hd
        have hRne : (if (c :: cs.takeWhile isPyWs).contains '\n' then [' ']
            else c :: cs.takeWhile isPyWs) ≠ [] := by
          split <;> simp
        have hRall : ∀ x ∈ (if (c :: cs.takeWhile isPyWs).contains '\n' then [' ']
            else c :: cs.takeWhile isPyWs), isPyWs x = true := by
          split
          · intro x hx
            simp only [List.mem_singleton] at hx
            subst hx
            rfl
          · intro x hx
            rcases List.mem_cons.mp hx with h | h
            · subst h; exact hc
            · exact List.mem_takeWhile_imp h
        rw [squashWsRuns_wsRun_append _ _ hRne hRall
          (squashNlRuns_head _ hrest_head)]
        rw [ih (cs.dropWhile isPyWs)
          (le_trans (length_dropWhile_le_list _ _) (by simpa using hl))]
        rw [squashWsRuns_cons_ws cs hc]
      · have hc' : isPyWs c = false := by simpa using hc
        rw [squashNlRuns_cons_nonws cs hc', squashWsRuns_cons_nonws _ hc',
          squashWsRuns_cons_nonws cs hc', ih cs (by simpa using hl)]

/-- C9 (amended): text inside a pre context passes through verbatim; all
other text (a code context outside pre does not suppress this) is
normalized by collapsing every maximal whitespace run to a single space
(squashWsRuns) after removing the leading and the trailing whitespace run
exactly when that run contains a newline — plain leading or trailing spaces
are collapsed, not stripped.  The concrete conjuncts exercise each
behavior. -/
theorem C9_whitespace_normalization :
    (∀ (tags : List String) (data : String),
      tags.contains "pre" = true → handle_data_text tags data = data) ∧
    (∀ (tags : List String) (data : String),
      tags.contains "pre" = false →
      handle_data_text tags data =
        String.mk (squashWsRuns (dropTrailingNlWs (dropLeadingNlWs data.toList)))) ∧
    handle_data_text ["code"] " a  b " = " a b " ∧
    handle_data_text [] "  \n two\nlines \n " = "two lines" ∧
    handle_data_text [] " a " = " a " := by
  refine ⟨?_, ?_, rfl, rfl, rfl⟩
  · intro tags data h
    unfold handle_data_text
    rw [h]
    simp
  · intro tags data h
    simp only [handle_data_text, h, Bool.false_eq_true, if_false,
      remove_whitespace, if_pos]
    rw [squashComp (dropTrailingNlWs (dropLeadingNlWs data.toList)).length _
      (le_refl _)]

/-- C9 counterexample to the claim as stated: text inside a code tag (with
no pre open) is normalized, not passed through verbatim, and leading or
trailing spaces without a newline are collapsed to one space rather than
stripped (the claim-side collapse_and_strip would give a bare a). -/
theorem C9_code_not_preformatted_counterexample :
    handle_data_text ["code"] " a  b " = " a b " ∧
    (" a b " : String) ≠ " a  b " ∧
    handle_data_text [] " a " = " a " ∧
    collapse_and_strip " a " = "a" ∧
    (" a " : String) ≠ "a" := by
  refine ⟨rfl, by decide, rfl, rfl, by decide⟩

/-- Witness for C9: the amended theorem instantiated at a code context and
at a pre context. -/
theorem C9_whitespace_normalization_witness :
    handle_data_text ["code"] " x \n y " =
      String.mk (squashWsRuns (dropTrailingNlWs
        (dropLeadingNlWs (" x \n y " : String).toList))) ∧
    handle_data_text ["pre"] " a  b " = " a  b " :=
  ⟨C9_whitespace_normalization.2.1 ["code"] " x \n y " (by decide),
   C9_whitespace_normalization.1 ["pre"] " a  b " (by decide)⟩

/-! ## Cell-conversion theorem -/

/-- C10: after add_html_to_cell the target cell always holds at least one
paragraph: the pre-existing first (default) paragraph is deleted, the
conversion output replaces it, and an empty paragraph is appended exactly
when the conversion produced none. -/
theorem C10_cell_paragraph_invariant :
    (∀ (cellParas produced : List String),
      1 ≤ (add_html_to_cell cellParas produced).length) ∧
    (∀ (d : String) (rest produced : List String),
      add_html_to_cell (d :: rest) produced =
        if rest ++ produced = [] then [""] else rest ++ produced) ∧
    add_html_to_cell ["default"] [] = [""] ∧
    add_html_to_cell ["default"] ["p1", "p2"] = ["p1", "p2"] := by
  refine ⟨?_, ?_, rfl, rfl⟩
  · intro cellParas produced
    unfold add_html_to_cell
    by_cases h : (cellParas.drop 1 ++ produced) = []
    · rw [if_pos h]
      simp
    · rw [if_neg h]
      exact List.length_pos.mpr h
  · intro d rest produced
    rfl

/-! ## Border-resolver lemmas -/

theorem resolveSize_cons (p : String) (rest : List String) (init : Option ℚ) :
    resolveSize (p :: rest) init =
      resolveSize rest
        (if tokKind p = .sizeTok then
          some ((border_unit_converter (cleanTok p)).getD 0)
        else init) := rfl

theorem resolveStyle_cons (p : String) (rest : List String) (init : String) :
    resolveStyle (p :: rest) init =
      resolveStyle rest
        (if tokKind p = .styleTok then parse_border_style_kw (cleanTok p)
         else init) := rfl

theorem resolveColor_cons (p : String) (rest : List String) (init : String) :
    resolveColor (p :: rest) init =
      resolveColor rest
        (if tokKind p = .colorTok then colorStepVal init p else init) := rfl

theorem borderLoop_eq (parts : List String) :
    ∀ acc : Option ℚ × String × String,
    (∀ p ∈ parts, tokKind p = .colorTok →
      (parse_color_hex (cleanTok p)).isOk = true) →
    borderLoop acc parts =
      .ok (resolveSize parts acc.1, resolveStyle parts acc.2.1,
           resolveColor parts acc.2.2) := by
  induction parts with
  | nil => intro acc _; rfl
  | cons p rest ih =>
    intro acc hcol
    have hrest : ∀ q ∈ rest, tokKind q = .colorTok →
        (parse_color_hex (cleanTok q)).isOk = true :=
      fun q hq => hcol q (List.mem_cons_of_mem p hq)
    rw [resolveSize_cons, resolveStyle_cons, resolveColor_cons]
    by_cases h1 : (border_width_pattern (cleanTok p) ||
        (dget BORDER_KEYWORDS (cleanTok p)).isSome) = true
    · have hk : tokKind p = .sizeTok := by
        unfold tokKind
        rw [if_pos h1]
      have hs : borderStep acc p =
          .ok (some ((border_unit_converter (cleanTok p)).getD 0), acc.2.1, acc.2.2) := by
        unfold borderStep
        rw [if_pos h1]
      have hl : borderLoop acc (p :: rest) =
          borderLoop (some ((border_unit_converter (cleanTok p)).getD 0),
            acc.2.1, acc.2.2) rest := by
        show (match borderStep acc p with
          | .error e => Except.error e
          | .ok acc2 => borderLoop acc2 rest) = _
        rw [hs]
      have hnst : ¬(tokKind p = TokKind.styleTok) := by rw [hk]; decide
      have hnc : ¬(tokKind p = TokKind.colorTok) := by rw [hk]; decide
      rw [hl, ih _ hrest, if_pos hk, if_neg hnst, if_neg hnc]
    · by_cases h2 : (dget BORDER_STYLES_TBL (cleanTok p)).isSome = true
      · have hk : tokKind p = .styleTok := by
          unfold tokKind
          rw [if_neg h1, if_pos h2]
        have hs : borderStep acc p =
            .ok (acc.1, parse_border_style_kw (cleanTok p), acc.2.2) := by
          unfold borderStep
          rw [if_neg h1, if_pos h2]
        have hl : borderLoop acc (p :: rest) =
            borderLoop (acc.1, parse_border_style_kw (cleanTok p), acc.2.2) rest := by
          show (match borderStep acc p with
            | .error e => Except.error e
            | .ok acc2 => borderLoop acc2 rest) = _
          rw [hs]
        have hns : ¬(tokKind p = TokKind.sizeTok) := by rw [hk]; decide
        have hnc : ¬(tokKind p = TokKind.colorTok) := by rw [hk]; decide
        rw [hl, ih _ hrest, if_neg hns, if_pos hk, if_neg hnc]
      · by_cases h3 : is_color (cleanTok p) = true
        · have hk : tokKind p = .colorTok := by
            unfold tokKind
            rw [if_neg h1, if_neg h2, if_pos h3]
          have hOk := hcol p (List.mem_cons_self p rest) hk
          cases hpc : parse_color_hex (cleanTok p) with
          | error e =>
            rw [hpc] at hOk
            simp [Except.isOk, Except.toBool] at hOk
          | ok hx =>
            have hs : borderStep acc p = .ok (acc.1, acc.2.1, hx) := by
              unfold borderStep
              rw [if_neg h1, if_neg h2, if_pos h3, hpc]
            have hl : borderLoop acc (p :: rest) =
                borderLoop (acc.1, acc.2.1, hx) rest := by
              show (match borderStep acc p with
                | .error e => Except.error e
                | .ok acc2 => borderLoop acc2 rest) = _
              rw [hs]
            have hns : ¬(tokKind p = TokKind.sizeTok) := by rw [hk]; decide
            have hnst : ¬(tokKind p = TokKind.styleTok) := by rw [hk]; decide
            have hcv : colorStepVal acc.2.2 p = hx := by
              unfold colorStepVal
              rw [hpc]
            rw [hl, ih _ hrest, if_neg hns, if_neg hnst, if_pos hk, hcv]
        · have hk : tokKind p = .junkTok := by
            unfold tokKind
            rw [if_neg h1, if_neg h2, if_neg h3]
          have hs : borderStep acc p = .ok acc := by
            unfold borderStep
            rw [if_neg h1, if_neg h2, if_neg h3]
          have hl : borderLoop acc (p :: rest) = borderLoop acc rest := by
            show (match borderStep acc p with
              | .error e => Except.error e
              | .ok acc2 => borderLoop acc2 rest) = _
            rw [hs]
          have hns : ¬(tokKind p = TokKind.sizeTok) := by rw [hk]; decide
          have hnst : ¬(tokKind p = TokKind.styleTok) := by rw [hk]; decide
          have hnc : ¬(tokKind p = TokKind.colorTok) := by rw [hk]; decide
          rw [hl, ih _ hrest, if_neg hns, if_neg hnst, if_neg hnc]

theorem foldl_skip_filter {α β : Type} (q : α → Prop) [DecidablePred q]
    (f : β → α → β) :
    ∀ (l : List α) (init : β),
    l.foldl (fun acc x => if q x then f acc x else acc) init =
      (l.filter (fun x => decide (q x))).foldl
        (fun acc x => if q x then f acc x else acc) init := by
  intro l
  induction l with
  | nil => intro init; rfl
  | cons x xs ih =>
    intro init
    by_cases hq : q x
    · rw [List.filter_cons_of_pos (by simpa using hq)]
      simp only [List.foldl_cons, if_pos hq]
      exact ih _
    · rw [List.filter_cons_of_neg (by simpa using hq)]
      simp only [List.foldl_cons, if_neg hq]
      exact ih init

theorem perm_eq_of_length_le_one {α : Type} {a b : List α} (h : a.Perm b)
    (hl : a.length ≤ 1) : a = b := by
  cases a with
  | nil => exact (List.Perm.eq_nil h.symm).symm
  | cons x xs =>
    cases xs with
    | nil => exact (List.perm_singleton.mp h.symm).symm
    | cons y ys => simp at hl

theorem parse_border_value_char (s : String)
    (h1 : pySplitWs s ≠ []) (h2 : pySplitWs s ≠ ["none"])
    (hcol : ∀ p ∈ pySplitWs s, tokKind p = .colorTok →
      (parse_color_hex (cleanTok p)).isOk = true) :
    parse_border_value s =
      .ok ((resolveSize (pySplitWs s) none).getD 1,
           resolveStyle (pySplitWs s) "single",
           resolveColor (pySplitWs s) "#000000") := by
  unfold parse_border_value
  rw [if_neg (by rintro (h | h) <;> [exact h1 h; exact h2 h])]
  rw [borderLoop_eq (pySplitWs s) _ hcol]
  cases hsz : resolveSize (pySplitWs s) none <;> simp [hsz, Option.getD]

theorem natOfDigits_one : natOfDigits ['1'] = 1 := by
  norm_num [natOfDigits, show '1'.toNat = 49 from rfl]

theorem natOfDigits_three : natOfDigits ['3'] = 3 := by
  norm_num [natOfDigits, show '3'.toNat = 51 from rfl]

theorem natOfDigits_five : natOfDigits ['5'] = 5 := by
  norm_num [natOfDigits, show '5'.toNat = 53 from rfl]

theorem border_unit_1px : border_unit_converter "1px" = some (3 / 4) := by
  rw [show border_unit_converter "1px" = some (natOfDigits ['1'] * (3 / 4)) from rfl,
    natOfDigits_one]
  norm_num

theorem border_unit_thin : border_unit_converter "thin" = some (3 / 4) := by
  rw [show border_unit_converter "thin" = some (natOfDigits ['1'] * (3 / 4)) from rfl,
    natOfDigits_one]
  norm_num

theorem border_unit_medium : border_unit_converter "medium" = some (9 / 4) := by
  rw [show border_unit_converter "medium" = some (natOfDigits ['3'] * (3 / 4)) from rfl,
    natOfDigits_three]
  norm_num

theorem border_unit_thick : border_unit_converter "thick" = some (15 / 4) := by
  rw [show border_unit_converter "thick" = some (natOfDigits ['5'] * (3 / 4)) from rfl,
    natOfDigits_five]
  norm_num

theorem resolveSize_congr_perm (l1 l2 : List String) (init : Option ℚ)
    (hperm : l1.Perm l2)
    (hc : l1.countP (fun p => decide (tokKind p = TokKind.sizeTok)) ≤ 1) :
    resolveSize l1 init = resolveSize l2 init := by
  have hf : l1.filter (fun p => decide (tokKind p = TokKind.sizeTok)) =
      l2.filter (fun p => decide (tokKind p = TokKind.sizeTok)) :=
    perm_eq_of_length_le_one (hperm.filter _)
      (by rw [← List.countP_eq_length_filter]; exact hc)
  calc resolveSize l1 init
      = (l1.filter (fun p => decide (tokKind p = TokKind.sizeTok))).foldl
          (fun acc p =>
            if tokKind p = TokKind.sizeTok then
              some ((border_unit_converter (cleanTok p)).getD 0)
            else acc) init :=
        foldl_skip_filter (fun p => tokKind p = TokKind.sizeTok)
          (fun _ p => some ((border_unit_converter (cleanTok p)).getD 0)) l1 init
    _ = (l2.filter (fun p => decide (tokKind p = TokKind.sizeTok))).foldl
          (fun acc p =>
            if tokKind p = TokKind.sizeTok then
              some ((border_unit_converter (cleanTok p)).getD 0)
            else acc) init := by rw [hf]
    _ = resolveSize l2 init :=
        (foldl_skip_filter (fun p => tokKind p = TokKind.sizeTok)
          (fun _ p => some ((border_unit_converter (cleanTok p)).getD 0)) l2 init).symm

theorem resolveStyle_congr_perm (l1 l2 : List String) (init : String)
    (hperm : l1.Perm l2)
    (hc : l1.countP (fun p => decide (tokKind p = TokKind.styleTok)) ≤ 1) :
    resolveStyle l1 init = resolveStyle l2 init := by
  have hf : l1.filter (fun p => decide (tokKind p = TokKind.styleTok)) =
      l2.filter (fun p => decide (tokKind p = TokKind.styleTok)) :=
    perm_eq_of_length_le_one (hperm.filter _)
      (by rw [← List.countP_eq_length_filter]; exact hc)
  calc resolveStyle l1 init
      = (l1.filter (fun p => decide (tokKind p = TokKind.styleTok))).foldl
          (fun acc p =>
            if tokKind p = TokKind.styleTok then parse_border_style_kw (cleanTok p)
            else acc) init :=
        foldl_skip_filter (fun p => tokKind p = TokKind.styleTok)
          (fun _ p => parse_border_style_kw (cleanTok p)) l1 init
    _ = (l2.filter (fun p => decide (tokKind p = TokKind.styleTok))).foldl
          (fun acc p =>
            if tokKind p = TokKind.styleTok then parse_border_style_kw (cleanTok p)
            else acc) init := by rw [hf]
    _ = resolveStyle l2 init :=
        (foldl_skip_filter (fun p => tokKind p = TokKind.styleTok)
          (fun _ p => parse_border_style_kw (cleanTok p)) l2 init).symm

theorem resolveColor_congr_perm (l1 l2 : List String) (init : String)
    (hperm : l1.Perm l2)
    (hc : l1.countP (fun p => decide (tokKind p = TokKind.colorTok)) ≤ 1) :
    resolveColor l1 init = resolveColor l2 init := by
  have hf : l1.filter (fun p => decide (tokKind p = TokKind.colorTok)) =
      l2.filter (fun p => decide (tokKind p = TokKind.colorTok)) :=
    perm_eq_of_length_le_one (hperm.filter _)
      (by rw [← List.countP_eq_length_filter]; exact hc)
  calc resolveColor l1 init
      = (l1.filter (fun p => decide (tokKind p = TokKind.colorTok))).foldl
          (fun acc p =>
            if tokKind p = TokKind.colorTok then colorStepVal acc p else acc) init :=
        foldl_skip_filter (fun p => tokKind p = TokKind.colorTok) colorStepVal l1 init
    _ = (l2.filter (fun p => decide (tokKind p = TokKind.colorTok))).foldl
          (fun acc p =>
            if tokKind p = TokKind.colorTok then colorStepVal acc p else acc) init := by
        rw [hf]
    _ = resolveColor l2 init :=
        (foldl_skip_filter (fun p => tokKind p = TokKind.colorTok)
          colorStepVal l2 init).symm

theorem resolveSize_of_no_size (l : List String) (init : Option ℚ)
    (hc : l.countP (fun p => decide (tokKind p = TokKind.sizeTok)) = 0) :
    resolveSize l init = init := by
  have hf : l.filter (fun p => decide (tokKind p = TokKind.sizeTok)) = [] :=
    List.length_eq_zero.mp (by rw [← List.countP_eq_length_filter]; exact hc)
  calc resolveSize l init
      = (l.filter (fun p => decide (tokKind p = TokKind.sizeTok))).foldl
          (fun acc p =>
            if tokKind p = TokKind.sizeTok then
              some ((border_unit_converter (cleanTok p)).getD 0)
            else acc) init :=
        foldl_skip_filter (fun p => tokKind p = TokKind.sizeTok)
          (fun _ p => some ((border_unit_converter (cleanTok p)).getD 0)) l init
    _ = init := by rw [hf, List.foldl_nil]

/-- C7: parse_border_value classifies every token independently so the
size, style and color tokens may appear in any order (for token lists with
at most one token per class, any permutation parses identically); the size
keywords thin, medium, thick convert exactly as 1px, 3px, 5px; a value with
a style or color but no size token gets the default size 1 (pt); and the
single token none or an empty value yields the all-default invisible border
of size 0. -/
theorem C7_parse_border_value :
    (parse_border_value "" = .ok (0, "single", "#000000") ∧
     parse_border_value "   " = .ok (0, "single", "#000000") ∧
     parse_border_value "none" = .ok (0, "single", "#000000")) ∧
    (border_unit_converter "thin" = border_unit_converter "1px" ∧
     border_unit_converter "medium" = border_unit_converter "3px" ∧
     border_unit_converter "thick" = border_unit_converter "5px" ∧
     border_unit_converter "thin" = some (3 / 4)) ∧
    (∀ s1 s2 : String,
      pySplitWs s1 ≠ [] → pySplitWs s1 ≠ ["none"] →
      pySplitWs s2 ≠ [] → pySplitWs s2 ≠ ["none"] →
      (pySplitWs s1).Perm (pySplitWs s2) →
      (pySplitWs s1).countP (fun p => decide (tokKind p = .sizeTok)) ≤ 1 →
      (pySplitWs s1).countP (fun p => decide (tokKind p = .styleTok)) ≤ 1 →
      (pySplitWs s1).countP (fun p => decide (tokKind p = .colorTok)) ≤ 1 →
      (∀ p ∈ pySplitWs s1, tokKind p = .colorTok →
        (parse_color_hex (cleanTok p)).isOk = true) →
      parse_border_value s1 = parse_border_value s2) ∧
    (∀ s : String,
      pySplitWs s ≠ [] → pySplitWs s ≠ ["none"] →
      (pySplitWs s).countP (fun p => decide (tokKind p = .sizeTok)) = 0 →
      (∀ p ∈ pySplitWs s, tokKind p = .colorTok →
        (parse_color_hex (cleanTok p)).isOk = true) →
      parse_border_value s =
        .ok (1, resolveStyle (pySplitWs s) "single",
             resolveColor (pySplitWs s) "#000000")) ∧
    (parse_border_value "1px solid red" = .ok (3 / 4, "single", "#FF0000") ∧
     parse_border_value "solid red" = .ok (1, "single", "#FF0000")) := by
  refine ⟨⟨rfl, rfl, rfl⟩, ⟨rfl, rfl, rfl, border_unit_thin⟩, ?_, ?_, ?_, ?_⟩
  · intro s1 s2 h1 h2 h3 h4 hperm hcs hcst hcc hcol
    have hcol2 : ∀ p ∈ pySplitWs s2, tokKind p = .colorTok →
        (parse_color_hex (cleanTok p)).isOk = true :=
      fun p hp hk => hcol p (hperm.mem_iff.mpr hp) hk
    rw [parse_border_value_char s1 h1 h2 hcol,
      parse_border_value_char s2 h3 h4 hcol2,
      resolveSize_congr_perm (pySplitWs s1) (pySplitWs s2) none hperm hcs,
      resolveStyle_congr_perm (pySplitWs s1) (pySplitWs s2) "single" hperm hcst,
      resolveColor_congr_perm (pySplitWs s1) (pySplitWs s2) "#000000" hperm hcc]
  · intro s h1 h2 hcs hcol
    rw [parse_border_value_char s h1 h2 hcol,
      resolveSize_of_no_size (pySplitWs s) none hcs]
    rfl
  · rw [parse_border_value_char "1px solid red" (by decide) (by decide) (by decide)]
    rw [show resolveSize (pySplitWs "1px solid red") none =
        some ((border_unit_converter "1px").getD 0) from rfl]
    rw [border_unit_1px]
    rfl
  · rw [parse_border_value_char "solid red" (by decide) (by decide) (by decide)]
    rfl

/-- Witness for C7: the any-order theorem instantiated at the two
orderings 1px solid red and red 1px solid, which parse identically. -/
theorem C7_parse_border_value_witness :
    parse_border_value "1px solid red" = parse_border_value "red 1px solid" ∧
    parse_border_value "red 1px solid" = .ok (3 / 4, "single", "#FF0000") := by
  have h := C7_parse_border_value.2.2.1 "1px solid red" "red 1px solid" (by decide)
    (by decide) (by decide) (by decide) (by decide) (by decide) (by decide)
    (by decide) (by decide)
  exact ⟨h, h.symm.trans C7_parse_border_value.2.2.2.2.1⟩

end Html4Docx
